import Mathlib

/-!
# RocmAlignedBitrotFinder: host driver of the single-bit-flip search

A shallow embedding of `src/RocmAlignedBitrotFinder/kernel.cpp`
(`bruteforceBits`, `hexStringToBytes`, `main`).

Conventions.

* Bytes (`unsigned char`) are natural numbers below 256; buffers are lists.
* `size_t` quantities are natural numbers (below `2^64` in any real call).
* `int` quantities are integers kept in the 32-bit range by `wrapInt32`: the
  loop counter `int i` of the midstate loop, the expressions `i + 1` and
  `i * CHUNK_SIZE` built from it, and `blocksPerGrid`.  An `int` meets a
  `size_t` through `toSizeT`.
* The result cell (`unsigned int`) is a `Cell`, a number below `2^32`;
  storing an index in it keeps the low 32 bits (`toCell`).
* `CHUNK_SIZE` and `BATCH_SIZE` are constants of `sha1.hpp`, which is not
  among the sources; every definition takes them as parameters `CHUNK` and
  `BATCH`.  They are taken to be plain `int` constants, so that
  `i * CHUNK_SIZE` is an `int` product; the theorems about the midstate
  table assume `pieceSize < 2^31`, where no reading of that product wraps.
* `SHA1_CTX`, `sha1_init`, `sha1_update`, `sha1_final` and `bitFlipKernel`
  live in `sha1.hpp` too.  The hasher is a parameter (`Hasher`); the kernel is
  a parameter of `bruteforceBits`, and `bitFlipKernel` and
  `bitFlipKernelBytes` below are two models of it after the specification.
-/

namespace BitrotFinder

/-! ## Machine integers -/

/-- Conversion of an unsigned value to `int` (32 bits, two's complement). -/
def toInt32 (n : Nat) : Int :=
  if n % 2 ^ 32 < 2 ^ 31 then ((n % 2 ^ 32 : Nat) : Int) else ((n % 2 ^ 32 : Nat) : Int) - 2 ^ 32

/-- The value an `int` expression takes when its mathematical value is `z`:
it wraps around in 32 bits. -/
def wrapInt32 (z : Int) : Int :=
  toInt32 (z % 2 ^ 32).toNat

/-- Conversion of an `int` to `size_t` (64 bits), as the comparison
`i < midstatesLength` does with its left operand. -/
def toSizeT (z : Int) : Nat :=
  (z % 2 ^ 64).toNat

/-- The values of an `unsigned int`, the type of the result cell. -/
abbrev Cell := Fin 4294967296

/-- Storing a number in an `unsigned int` keeps its low 32 bits. -/
def toCell (n : Nat) : Cell :=
  ⟨n % 4294967296, Nat.mod_lt _ (by decide)⟩

/-! ## The incremental hasher (interface of `sha1.hpp`) -/

/-- Modelled from the spec: the incremental hasher declared in `sha1.hpp`
(`SHA1_CTX`, `sha1_init`, `sha1_update`, `sha1_final`), absent from the
sources.  `σ` is the context type `SHA1_CTX`; a digest is a list of bytes. -/
structure Hasher (σ : Type) where
  /-- The state written by `sha1_init(&ctx)`. -/
  sha1_init : σ
  /-- The state after `sha1_update(&ctx, data, len)` on the given bytes. -/
  sha1_update : σ → List Nat → σ
  /-- The digest produced by finalising a copy of the state. -/
  sha1_final : σ → List Nat

/-- From-scratch digest `finalize(update(init(), bytes))`. -/
def Hasher.hash {σ : Type} (H : Hasher σ) (bytes : List Nat) : List Nat :=
  H.sha1_final (H.sha1_update H.sha1_init bytes)

/-- The contract of spec section 4.1, exactly as written there: it speaks
of two updates applied to the initial state only. -/
def Hasher.ContractAtInit {σ : Type} (H : Hasher σ) : Prop :=
  ∀ A B : List Nat,
    H.sha1_final (H.sha1_update (H.sha1_update H.sha1_init A) B)
      = H.sha1_final (H.sha1_update H.sha1_init (A ++ B))

/-- The same contract at an arbitrary state instead of the initial one. -/
def Hasher.ContractAtEveryState {σ : Type} (H : Hasher σ) : Prop :=
  ∀ (s : σ) (A B : List Nat),
    H.sha1_final (H.sha1_update (H.sha1_update s A) B)
      = H.sha1_final (H.sha1_update s (A ++ B))

/-- A hasher whose state is the list of bytes seen so far and whose digest
is that list. -/
def concatHasher : Hasher (List Nat) where
  sha1_init := []
  sha1_update := fun s bytes => s ++ bytes
  sha1_final := fun s => s

/-- A hasher that also counts its `update` calls and only produces the
message as digest when it was fed in at most two calls. -/
def countingHasher : Hasher (List Nat × Nat) where
  sha1_init := ([], 0)
  sha1_update := fun s bytes => (s.1 ++ bytes, s.2 + 1)
  sha1_final := fun s => if s.2 ≤ 2 then s.1 else []

/-! ## Midstate table (`bruteforceBits`, lines 27-37) -/

/-- The bytes `&pieceData[off]` .. `&pieceData[off + len - 1]`. -/
def bytesAt (pieceData : List Nat) (off len : Nat) : List Nat :=
  (pieceData.drop off).take len

/-- `size_t midstatesLength = pieceSize / CHUNK_SIZE;` -/
def midstatesLength (pieceSize CHUNK : Nat) : Nat :=
  pieceSize / CHUNK

/-- The `CHUNK` bytes read through `&pieceData[off]` for an `int` offset.  A
negative offset points before the buffer; the model reads nothing there. -/
def bytesAtInt (pieceData : List Nat) (off : Int) (len : Nat) : List Nat :=
  if 0 ≤ off then bytesAt pieceData off.toNat len else []

/-- The array after `midstates[idx] = ctx` for an `int` index.  A negative
index, like one past the end, addresses no slot of the array; the model
leaves the array as it is. -/
def storeSlot {σ : Type} (midstates : List (Option σ)) (idx : Int) (ctx : σ) :
    List (Option σ) :=
  if 0 ≤ idx then midstates.set idx.toNat (some ctx) else midstates

/-- The `for` loop of lines 34-37 with `int i` at `i`: while
`i < midstatesLength` (compared as `size_t`), update `ctx` with `CHUNK` bytes
at `i * CHUNK`, store the context into slot `i + 1`, increment `i`; the three
`int` expressions wrap around in 32 bits.  Slots of the freshly allocated
array are `none` until written.  The first argument bounds the number of
iterations; the loop makes at most `midstatesLength` of them, the values of
`i` it runs with being different numbers below `midstatesLength`. -/
def midstateLoop {σ : Type} (H : Hasher σ) (pieceData : List Nat) (CHUNK len : Nat) :
    Nat → Int → σ → List (Option σ) → σ × List (Option σ)
  | 0, _, ctx, midstates => (ctx, midstates)
  | fuel + 1, i, ctx, midstates =>
    if toSizeT i < len then
      let ctx' := H.sha1_update ctx (bytesAtInt pieceData (wrapInt32 (i * CHUNK)) CHUNK)
      let midstates' := storeSlot midstates (wrapInt32 (i + 1)) ctx'
      midstateLoop H pieceData CHUNK len fuel (wrapInt32 (i + 1)) ctx' midstates'
    else (ctx, midstates)

/-- Lines 27-37: allocate `midstatesLength + 1` slots, store the initial
context in slot 0, run the loop from `i = 0`. -/
def buildMidstates {σ : Type} (H : Hasher σ) (pieceData : List Nat)
    (pieceSize CHUNK : Nat) : List (Option σ) :=
  let len := midstatesLength pieceSize CHUNK
  let midstates : List (Option σ) := List.replicate (len + 1) none
  let ctx := H.sha1_init
  let midstates := midstates.set 0 (some ctx)
  (midstateLoop H pieceData CHUNK len len 0 ctx midstates).2

/-- Reference definition of spec section 4.2: `Midstate[0] = init()`,
`Midstate[k+1] = update(Midstate[k], piece[k*CHUNK : (k+1)*CHUNK])`. -/
def midstateRef {σ : Type} (H : Hasher σ) (piece : List Nat) (CHUNK : Nat) : Nat → σ
  | 0 => H.sha1_init
  | k + 1 => H.sha1_update (midstateRef H piece CHUNK k) (bytesAt piece (k * CHUNK) CHUNK)

/-- The chunks `piece[j*CHUNK : (j+1)*CHUNK)` for `j < k`, in order: the
bytes a midstate at chunk boundary `k` has been fed. -/
def chunksBefore (piece : List Nat) (CHUNK k : Nat) : List (List Nat) :=
  (List.range k).map fun j => bytesAt piece (j * CHUNK) CHUNK

/-- The hasher state after feeding the given chunks, one `sha1_update` each,
to the initial state. -/
def stateAfter {σ : Type} (H : Hasher σ) (chunks : List (List Nat)) : σ :=
  chunks.foldl H.sha1_update H.sha1_init

/-! ## Device calls and the trace of a run of `bruteforceBits` -/

/-- The device calls of `bruteforceBits`, in source order. -/
inductive DevCall
  /-- Line 39: `hipSetDevice(0)`. -/
  | setDevice
  /-- Line 46: `hipMalloc(&dev_pieceData, pieceSize)`. -/
  | mallocPieceData
  /-- Line 52: `hipMalloc(&dev_pieceHash, 20)`. -/
  | mallocPieceHash
  /-- Line 58: `hipMalloc(&dev_midstates, (pieceSize / CHUNK_SIZE + 1) * sizeof(SHA1_CTX))`. -/
  | mallocMidstates
  /-- Line 64: `hipMalloc(&dev_result, sizeof(unsigned int))`. -/
  | mallocResult
  /-- Line 71: copy of `pieceSize` piece bytes to the device. -/
  | copyPieceData
  /-- Line 77: copy of the 20 hash bytes to the device. -/
  | copyPieceHash
  /-- Line 83: copy of the midstate table to the device. -/
  | copyMidstates
  /-- Line 89: copy of `*result` into the device result cell. -/
  | copyResult
  /-- Lines 97-100: `hipLaunchKernelGGL` and the `hipGetLastError` after it. -/
  | launch
  /-- Line 106: `hipDeviceSynchronize()`. -/
  | synchronize
  /-- Line 112: copy of the device result cell back into `*result`. -/
  | readBack
  deriving DecidableEq, Repr

/-- Device buffers released under the `Error:` label. -/
inductive DevBuf
  | pieceData
  | pieceHash
  | midstates
  | result
  deriving DecidableEq, Repr

/-- What a run of `bruteforceBits` does, in order. -/
inductive Event
  /-- Lines 27-37: the host-side midstate table was built with this many slots. -/
  | hostMidstates (slots : Nat)
  /-- A device call and whether it returned `hipSuccess`. -/
  | call (c : DevCall) (ok : Bool)
  /-- A diagnostic written with `fprintf(stderr, ...)`: its format string. -/
  | stderr (msg : String)
  /-- Lines 119-122: `hipFree` of a device buffer. -/
  | hipFree (b : DevBuf)
  /-- Line 124: `delete[] midstates`. -/
  | deleteMidstates
  deriving DecidableEq, Repr

/-- Final state of a run of `bruteforceBits`: the value in `*result` when the
function returns, and the trace. -/
structure Run where
  result : Cell
  events : List Event
  deriving DecidableEq, Repr

/-- The kernel as seen from the host: from the launch geometry and the
device copies of its arguments and the value of the device result cell at
launch, the value of that cell once every worker has finished. -/
abbrev Kernel (σ : Type) :=
  (gridDim blockDim : Nat) → (dev_pieceData dev_pieceHash : List Nat) →
    (dev_midstates : List (Option σ)) → (pieceSize : Nat) → (dev_result : Cell) → Cell

/-! ## Launch geometry (`bruteforceBits`, lines 95-98) -/

/-- Line 95: `int threadsPerBlock = 1024;` -/
def threadsPerBlock : Nat := 1024

/-- Line 96: `int blocksPerGrid = ((pieceSize / BATCH_SIZE) + threadsPerBlock - 1) / threadsPerBlock;`
computed in `size_t` (64 bits) and narrowed to `int`. -/
def blocksPerGrid (pieceSize BATCH : Nat) : Int :=
  toInt32 ((pieceSize / BATCH + threadsPerBlock - 1) % 2 ^ 64 / threadsPerBlock)

/-- The grid size `dim3(blocksPerGrid)`: the `int` converted to the unsigned
32-bit `x` dimension. -/
def gridDimX (blocks : Int) : Nat :=
  (blocks % 2 ^ 32).toNat

/-- Number of workers (threads) the launch of lines 97-98 creates. -/
def launchedWorkers (pieceSize BATCH : Nat) : Nat :=
  gridDimX (blocksPerGrid pieceSize BATCH) * threadsPerBlock

/-- Candidate indices of the batch owned by worker `w`: `BATCH` consecutive
indices starting at `w * BATCH`. -/
def InBatch (BATCH w idx : Nat) : Prop :=
  w * BATCH ≤ idx ∧ idx < (w + 1) * BATCH

instance (BATCH w idx : Nat) : Decidable (InBatch BATCH w idx) := by
  unfold InBatch; infer_instance

/-! ## `bruteforceBits` (lines 19-127) -/

/-- The code under the `Error:` label (lines 118-126), reached by `goto` and
by falling through: free the four device buffers, delete the host table and
return with `*result` as it stands. -/
def errorExit (result : Cell) (events : List Event) : Run :=
  { result := result
    events := events ++ [.hipFree .pieceData, .hipFree .pieceHash, .hipFree .midstates,
      .hipFree .result, .deleteMidstates] }

/-- One guarded device call of the setup: on `hipSuccess` go on, otherwise
print the message and `goto Error`. -/
def attempt (status : DevCall → Bool) (c : DevCall) (msg : String) (result : Cell)
    (events : List Event) (next : List Event → Run) : Run :=
  if status c then next (events ++ [.call c true])
  else errorExit result (events ++ [.call c false, .stderr msg])

/-- The function `bruteforceBits`.  `status` tells which device calls return
`hipSuccess`; `kernel` is the effect of `bitFlipKernel` on the device result
cell; `result` is the value in `*result` at entry. -/
def bruteforceBits {σ : Type} (H : Hasher σ) (CHUNK BATCH : Nat) (status : DevCall → Bool)
    (kernel : Kernel σ) (pieceData pieceHash : List Nat) (pieceSize : Nat) (result : Cell) : Run :=
  let midstates := buildMidstates H pieceData pieceSize CHUNK
  let t := [Event.hostMidstates midstates.length]
  attempt status .setDevice "hipSetDevice failed!" result t fun t =>
  attempt status .mallocPieceData "hipMalloc failed!" result t fun t =>
  attempt status .mallocPieceHash "hipMalloc failed!" result t fun t =>
  attempt status .mallocMidstates "hipMalloc failed!" result t fun t =>
  attempt status .mallocResult "hipMalloc failed!" result t fun t =>
  attempt status .copyPieceData "hipMemcpy failed!" result t fun t =>
  let dev_pieceData := pieceData.take pieceSize
  attempt status .copyPieceHash "hipMemcpy failed!" result t fun t =>
  let dev_pieceHash := pieceHash.take 20
  attempt status .copyMidstates "hipMemcpy failed!" result t fun t =>
  let dev_midstates := midstates.take (pieceSize / CHUNK + 1)
  attempt status .copyResult "hipMemcpy failed!" result t fun t =>
  let dev_result := result
  attempt status .launch "kernel launch failed: %s\n" result t fun t =>
  let dev_result := kernel (gridDimX (blocksPerGrid pieceSize BATCH)) threadsPerBlock
    dev_pieceData dev_pieceHash dev_midstates pieceSize dev_result
  attempt status .synchronize
    "hipDeviceSynchronize returned error code %d after launching kernel!\n" result t fun t =>
  attempt status .readBack "hipMemcpy failed!" result t fun t =>
  errorExit dev_result t

/-- The device calls in the order `bruteforceBits` makes them. -/
def callOrder : List DevCall :=
  [.setDevice, .mallocPieceData, .mallocPieceHash, .mallocMidstates, .mallocResult,
    .copyPieceData, .copyPieceHash, .copyMidstates, .copyResult, .launch, .synchronize,
    .readBack]

/-! ## The search kernel, after the specification (sections 3, 4.3, 4.4) -/

/-- Modelled from the spec: `byteOffset = index / 8` (section 3,
CandidateBitIndex); the kernel source `bitFlipKernel` is absent. -/
def byteOffset (idx : Nat) : Nat := idx / 8

/-- Modelled from the spec: `bitMask = 1 << (index mod 8)` (section 3); the
kernel source is absent. -/
def bitMask (idx : Nat) : Nat := 1 <<< (idx % 8)

/-- Modelled from the spec: `chunkIndex = byteOffset / CHUNK_SIZE` (section
3, invariants); the kernel source is absent. -/
def chunkIndex (CHUNK idx : Nat) : Nat := byteOffset idx / CHUNK

/-- The buffer with the bits of `mask` flipped in the byte at `off`. -/
def flipAt (bytes : List Nat) (off mask : Nat) : List Nat :=
  bytes.set off (bytes.getD off 0 ^^^ mask)

/-- The piece with candidate bit `i` flipped: byte `i / 8`, mask
`1 << (i mod 8)`. -/
def flipBit (P : List Nat) (i : Nat) : List Nat :=
  flipAt P (byteOffset i) (bitMask i)

/-- Modelled from the spec: steps 1-4 of the Bit-Flip Verifier (section 4.3),
whose source `bitFlipKernel` is absent: resume from `Midstate[chunkIndex]`,
copy the suffix `piece[chunkIndex*CHUNK : pieceSize)`, flip the bit in the
copy, update and finalise. -/
def candidateDigest {σ : Type} (H : Hasher σ) (CHUNK : Nat) (pieceData : List Nat)
    (midstates : List (Option σ)) (pieceSize idx : Nat) : Option (List Nat) :=
  let ci := chunkIndex CHUNK idx
  match midstates[ci]? with
  | some (some m) =>
    let suffix := bytesAt pieceData (ci * CHUNK) (pieceSize - ci * CHUNK)
    let mutated := flipAt suffix (byteOffset idx - ci * CHUNK) (bitMask idx)
    some (H.sha1_final (H.sha1_update m mutated))
  | _ => none

/-- Modelled from the spec: steps 5-6 of the Bit-Flip Verifier (section 4.3),
source absent: on an exact digest match claim the result cell with this
index if it still holds the sentinel.  The cell is an `unsigned int`, so the
index is stored through `toCell`. -/
def verifyCandidate {σ : Type} (H : Hasher σ) (CHUNK : Nat) (pieceData pieceHash : List Nat)
    (midstates : List (Option σ)) (pieceSize : Nat) (sentinel cell : Cell) (idx : Nat) : Cell :=
  if candidateDigest H CHUNK pieceData midstates pieceSize idx = some pieceHash then
    (if cell = sentinel then toCell idx else cell)
  else cell

/-- Modelled from the spec: the batch of worker `w` (section 4.4), source
absent: the `BATCH` consecutive candidate indices from `w * BATCH` on that
lie in `[0, pieceSize * 8)`. -/
def workerBatch (BATCH pieceSize w : Nat) : List Nat :=
  ((List.range BATCH).map fun j => w * BATCH + j).filter fun idx => idx < pieceSize * 8

/-- Modelled from the spec: the candidates of all `workers` workers (section
4.4), batch after batch; the kernel source is absent. -/
def allCandidates (BATCH pieceSize workers : Nat) : List Nat :=
  (List.range workers).flatMap (workerBatch BATCH pieceSize)

/-- Modelled from the spec: `bitFlipKernel` (absent from the sources) as a
host-visible effect.  The `gridDim * blockDim` workers verify each candidate
of their batches once, every verification being one atomic step on the result
cell; `interleaving` is the order in which these steps happen to take place.
The sentinel is the value the caller put in the result cell. -/
def bitFlipKernelScheduled {σ : Type} (H : Hasher σ) (CHUNK BATCH : Nat)
    (interleaving : List Nat → List Nat) : Kernel σ :=
  fun gridDim blockDim dev_pieceData dev_pieceHash dev_midstates pieceSize dev_result =>
    (interleaving (allCandidates BATCH pieceSize (gridDim * blockDim))).foldl
      (verifyCandidate H CHUNK dev_pieceData dev_pieceHash dev_midstates pieceSize dev_result)
      dev_result

/-- The kernel with the workers running one after the other in index order. -/
def bitFlipKernel {σ : Type} (H : Hasher σ) (CHUNK BATCH : Nat) : Kernel σ :=
  bitFlipKernelScheduled H CHUNK BATCH id

/-- Modelled from the spec: the batch of worker `w` when a batch is `BATCH`
bytes of the piece, the reading under which line 96 launches one worker per
`pieceSize / BATCH_SIZE`: the 8 bit indices of each of the bytes
`w * BATCH` .. `(w + 1) * BATCH - 1` that lie in the piece.  The kernel source
is absent. -/
def workerByteBatch (BATCH pieceSize w : Nat) : List Nat :=
  ((List.range (BATCH * 8)).map fun j => w * BATCH * 8 + j).filter fun idx =>
    idx < pieceSize * 8

/-- Modelled from the spec: `bitFlipKernel` (absent from the sources) with
batches of `BATCH` bytes, the workers running in index order. -/
def bitFlipKernelBytes {σ : Type} (H : Hasher σ) (CHUNK BATCH : Nat) : Kernel σ :=
  fun gridDim blockDim dev_pieceData dev_pieceHash dev_midstates pieceSize dev_result =>
    ((List.range (gridDim * blockDim)).flatMap (workerByteBatch BATCH pieceSize)).foldl
      (verifyCandidate H CHUNK dev_pieceData dev_pieceHash dev_midstates pieceSize dev_result)
      dev_result

/-- Modelled from the spec: what section 4.4 lets one assume of
`bitFlipKernel`, absent from the sources, whichever way it counts a batch: a
kernel writes only what a launched worker found.  The result cell ends as it
was, or holding a bit index of a byte below `workers * BATCH`; the launched
workers own no byte beyond that, whether a batch is `BATCH` bytes or `BATCH`
candidate indices. -/
def Kernel.WritesOnlyLaunchedBatches {σ : Type} (kernel : Kernel σ) (BATCH : Nat) : Prop :=
  ∀ (gridDim blockDim : Nat) (dev_pieceData dev_pieceHash : List Nat)
    (dev_midstates : List (Option σ)) (pieceSize : Nat) (dev_result : Cell),
    kernel gridDim blockDim dev_pieceData dev_pieceHash dev_midstates pieceSize dev_result
        = dev_result
    ∨ (kernel gridDim blockDim dev_pieceData dev_pieceHash dev_midstates pieceSize
        dev_result).val / 8 < gridDim * blockDim * BATCH

/-- Position-weighted byte sum: the byte at position `pos + k` of the list
counts `pos + k + 1` times. -/
def weightedSum : Nat → List Nat → Nat
  | _, [] => 0
  | pos, b :: bs => (pos + 1) * b + weightedSum (pos + 1) bs

/-- A toy hasher with 20-byte digests: the state is the message so far, the
digest holds the byte sum, the position-weighted byte sum (two bytes) and the
last byte of the message, padded with zeros. -/
def toyHasher : Hasher (List Nat) where
  sha1_init := []
  sha1_update := fun s bytes => s ++ bytes
  sha1_final := fun s =>
    [s.sum % 256, weightedSum 0 s % 256, weightedSum 0 s / 256 % 256,
      s.getD (s.length - 1) 0 % 256] ++ List.replicate 16 0

/-! ## Sample inputs -/

/-- Every device call succeeds. -/
def allOk : DevCall → Bool := fun _ => true

/-- Every device call succeeds except `c`. -/
def failAt (c : DevCall) : DevCall → Bool := fun d => decide (d ≠ c)

/-- A piece of 64 zero bytes (scenarios A and B of the specification). -/
def zeros64 : List Nat := List.replicate 64 0

/-- The sentinel `main` puts in `result`: `(unsigned int) -1`. -/
def sentinel : Cell := 4294967295

/-! ## `hexStringToBytes` (lines 129-146) -/

/-- Value of a hexadecimal digit character, `none` for any other character. -/
def hexVal (c : Char) : Option Nat :=
  if '0'.toNat ≤ c.toNat ∧ c.toNat ≤ '9'.toNat then some (c.toNat - '0'.toNat)
  else if 'a'.toNat ≤ c.toNat ∧ c.toNat ≤ 'f'.toNat then some (c.toNat - 'a'.toNat + 10)
  else if 'A'.toNat ≤ c.toNat ∧ c.toNat ≤ 'F'.toNat then some (c.toNat - 'A'.toNat + 10)
  else none

/-- The digit table the specification's "hexadecimal digit" refers to:
the position of the character in `0123456789abcdef`, or in
`0123456789ABCDEF`. -/
def hexDigitValue (c : Char) : Option Nat :=
  match "0123456789abcdef".toList.indexOf? c with
  | some v => some v
  | none => "0123456789ABCDEF".toList.indexOf? c

/-- A character that `isspace` accepts in the C locale. -/
def isSpaceC (c : Char) : Bool :=
  c = ' ' || c = '\t' || c = '\n' || c.toNat = 11 || c.toNat = 12 || c = '\r'

/-- Value of the longest run of hexadecimal digits at the head of the
string, accumulated from `acc`. -/
def hexDigitsValue : Nat → List Char → Nat
  | acc, [] => acc
  | acc, c :: cs =>
    match hexVal c with
    | some v => hexDigitsValue (16 * acc + v) cs
    | none => acc

/-- The C library call `std::strtoul(s, nullptr, 16)` on a NUL-terminated
string with 64-bit `unsigned long`: leading white space, an optional sign,
an optional `0x`/`0X` before a digit, then the longest run of hexadecimal
digits; 0 when there is none; `ULONG_MAX` on overflow; a minus sign negates
in `unsigned long`. -/
def strtoul16 (s : List Char) : Nat :=
  let s1 := s.dropWhile isSpaceC
  let negative : Bool := s1.head? = some '-'
  let s2 := if s1.head? = some '-' ∨ s1.head? = some '+' then s1.tail else s1
  let hasRadixMark : Bool :=
    s2.head? = some '0' ∧ (s2[1]? = some 'x' ∨ s2[1]? = some 'X')
      ∧ ((s2[2]?).bind hexVal).isSome
  let s3 := if hasRadixMark then s2.drop 2 else s2
  let v := min (hexDigitsValue 0 s3) (2 ^ 64 - 1)
  if negative then (2 ^ 64 - v) % 2 ^ 64 else v

/-- The function `hexStringToBytes`: `hexStr` is the C string without its
terminator, `byteArrayLength` the value of the reference parameter at entry.
Returns the array (`none` for `nullptr`) and the value of `byteArrayLength`
at exit. -/
def hexStringToBytes (hexStr : List Char) (byteArrayLength : Nat) : Option (List Nat) × Nat :=
  let hexStrLength := hexStr.length
  if hexStrLength % 2 ≠ 0 then (none, byteArrayLength)
  else
    let byteArrayLength := hexStrLength / 2
    let byteArray := (List.range byteArrayLength).map fun i =>
      let byteString := [hexStr.getD (2 * i) 'x', hexStr.getD (2 * i + 1) 'x']
      strtoul16 byteString % 256
    (some byteArray, byteArrayLength)

/-! ## `main` (lines 148-208) -/

/-- A file as `main` sees it: its bytes, and whether `file.read` of the
whole content succeeds. -/
structure PieceFile where
  content : List Nat
  readOk : Bool

/-- What a run of `main` does, in order. -/
inductive MainEvent
  /-- Output on `std::cerr` or `stderr`. -/
  | stderr (msg : String)
  /-- Line 170: the piece file is opened. -/
  | openFile (path : List Char)
  /-- Lines 189-194: the size and the first bytes are printed. -/
  | printFile (fileSize : Nat) (firstBytes : List Nat)
  /-- Line 197: `bruteforceBits` is called with this piece size; its trace. -/
  | search (pieceSize : Nat) (events : List Event)
  /-- Line 199: `Result: ` and the value of `result` are printed. -/
  | printResult (result : Cell)
  /-- Line 201: `hipDeviceReset()` and whether it succeeded. -/
  | deviceReset (ok : Bool)
  deriving DecidableEq, Repr

/-- The function `main`.  `argv` holds the `argc` argument strings (program
name first); `fs` maps a path to the file that opens there (`none` when it
cannot be opened); `resetOk` is the status of `hipDeviceReset`.  Returns the
exit code and the trace. -/
def main {σ : Type} (H : Hasher σ) (CHUNK BATCH : Nat) (fs : List Char → Option PieceFile)
    (status : DevCall → Bool) (resetOk : Bool) (kernel : Kernel σ)
    (argv : List (List Char)) : Nat × List MainEvent :=
  let argc := argv.length
  if argc ≠ 3 then (1, [.stderr "Error: Not enough arguments supplied!"])
  else
    let byteArrayLength := 0
    let decoded := hexStringToBytes (argv.getD 2 []) byteArrayLength
    let pieceHash := decoded.1
    let byteArrayLength := decoded.2
    if byteArrayLength ≠ 20 then (1, [.stderr "Error: Incorrect expected hash length"])
    else if argc < 2 then (1, [.stderr "Usage"])
    else
      let piecePath := argv.getD 1 []
      match fs piecePath with
      | none => (1, [.openFile piecePath, .stderr "Error: File does not exist or cannot be opened."])
      | some file =>
        let fileSize := file.content.length
        if !file.readOk then
          (1, [.openFile piecePath, .stderr "Error: Failed to read the file."])
        else
          let fileData := file.content
          let shown := MainEvent.printFile fileSize (fileData.take (min fileSize 64))
          let run := bruteforceBits H CHUNK BATCH status kernel fileData (pieceHash.getD [])
            fileSize sentinel
          let events := [.openFile piecePath, shown, .search fileSize run.events,
            .printResult run.result]
          if !resetOk then
            (1, events ++ [.deviceReset false, .stderr "hipDeviceReset failed!"])
          else (0, events ++ [.deviceReset true])

/-! ## Lemmas and theorems -/

/-! ### Machine integers in range -/

theorem toSizeT_natCast (k : Nat) (h : k < 2 ^ 64) : toSizeT (k : Int) = k := by
  unfold toSizeT
  omega

theorem wrapInt32_natCast (n : Nat) (h : n < 2 ^ 31) : wrapInt32 (n : Int) = (n : Int) := by
  unfold wrapInt32 toInt32
  have h1 : ((n : Int) % 2 ^ 32).toNat = n := by omega
  rw [h1]
  have h2 : n % 2 ^ 32 = n := by omega
  rw [h2, if_pos h]

theorem bytesAtInt_natCast (pieceData : List Nat) (off len : Nat) :
    bytesAtInt pieceData (off : Int) len = bytesAt pieceData off len := by
  unfold bytesAtInt
  rw [if_pos (Int.natCast_nonneg off), Int.toNat_natCast]

theorem storeSlot_natCast {σ : Type} (midstates : List (Option σ)) (idx : Nat) (ctx : σ) :
    storeSlot midstates (idx : Int) ctx = midstates.set idx (some ctx) := by
  unfold storeSlot
  rw [if_pos (Int.natCast_nonneg idx), Int.toNat_natCast]

theorem storeSlot_length {σ : Type} (midstates : List (Option σ)) (idx : Int) (ctx : σ) :
    (storeSlot midstates idx ctx).length = midstates.length := by
  unfold storeSlot
  split <;> simp

/-! ### Midstate table -/

theorem midstateLoop_length {σ : Type} (H : Hasher σ) (pieceData : List Nat) (CHUNK len : Nat)
    (fuel : Nat) (i : Int) (ctx : σ) (midstates : List (Option σ)) :
    (midstateLoop H pieceData CHUNK len fuel i ctx midstates).2.length = midstates.length := by
  induction fuel generalizing i ctx midstates with
  | zero => rfl
  | succ n ih =>
    simp only [midstateLoop]
    split
    · rw [ih, storeSlot_length]
    · rfl

/-- Within the `int` range the loop fills the slots with the reference
midstates: started at counter `k` with `n` iterations to go, `k + n` being
the loop bound. -/
theorem midstateLoop_entries {σ : Type} (H : Hasher σ) (pieceData : List Nat) (CHUNK len : Nat)
    (hlen31 : len < 2 ^ 31) (hprod : len * CHUNK < 2 ^ 31)
    (n k : Nat) (ctx : σ) (midstates : List (Option σ))
    (hk : k + n = len) (hlen : len < midstates.length)
    (hctx : ctx = midstateRef H pieceData CHUNK k)
    (hdone : ∀ j, j ≤ k → midstates[j]? = some (some (midstateRef H pieceData CHUNK j))) :
    ∀ j, j ≤ len →
      (midstateLoop H pieceData CHUNK len n (k : Int) ctx midstates).2[j]?
        = some (some (midstateRef H pieceData CHUNK j)) := by
  induction n generalizing k ctx midstates with
  | zero =>
    intro j hj
    exact hdone j (by omega)
  | succ n ih =>
    intro j hj
    have hklt : k < len := by omega
    have hkprod : k * CHUNK < 2 ^ 31 :=
      Nat.lt_of_le_of_lt (Nat.mul_le_mul_right _ (Nat.le_of_lt hklt)) hprod
    have hcond : toSizeT (k : Int) < len := by
      rw [toSizeT_natCast k (by omega)]
      exact hklt
    have hoff : wrapInt32 ((k : Int) * (CHUNK : Int)) = ((k * CHUNK : Nat) : Int) := by
      rw [← Nat.cast_mul]
      exact wrapInt32_natCast _ hkprod
    have hnext : wrapInt32 ((k : Int) + 1) = ((k + 1 : Nat) : Int) := by
      have : (k : Int) + 1 = ((k + 1 : Nat) : Int) := by push_cast; rfl
      rw [this]
      exact wrapInt32_natCast _ (by omega)
    simp only [midstateLoop, if_pos hcond, hoff, hnext, bytesAtInt_natCast, storeSlot_natCast]
    apply ih (k + 1)
    · omega
    · simp; omega
    · rw [hctx]; rfl
    · intro m hm
      by_cases hmi : m = k + 1
      · subst hmi
        rw [List.getElem?_set_self (by omega), hctx]; rfl
      · rw [List.getElem?_set_ne (by omega)]
        exact hdone m (by omega)
    · exact hj

theorem buildMidstates_length {σ : Type} (H : Hasher σ) (pieceData : List Nat)
    (pieceSize CHUNK : Nat) :
    (buildMidstates H pieceData pieceSize CHUNK).length = pieceSize / CHUNK + 1 := by
  simp [buildMidstates, midstateLoop_length, midstatesLength]

theorem buildMidstates_entry {σ : Type} (H : Hasher σ) (pieceData : List Nat)
    (pieceSize CHUNK : Nat) (hsmall : pieceSize < 2 ^ 31) (k : Nat)
    (hk : k ≤ pieceSize / CHUNK) :
    (buildMidstates H pieceData pieceSize CHUNK)[k]?
      = some (some (midstateRef H pieceData CHUNK k)) := by
  have h1 : pieceSize / CHUNK ≤ pieceSize := Nat.div_le_self _ _
  have h2 : pieceSize / CHUNK * CHUNK ≤ pieceSize := Nat.div_mul_le_self _ _
  unfold buildMidstates midstatesLength
  have := midstateLoop_entries H pieceData CHUNK (pieceSize / CHUNK) (by omega) (by omega)
    (pieceSize / CHUNK) 0 H.sha1_init
    ((List.replicate (pieceSize / CHUNK + 1) none).set 0 (some H.sha1_init))
    (by omega) (by simp) rfl
    (by
      intro j hj
      have : j = 0 := by omega
      subst this
      simp [midstateRef])
    k hk
  simpa using this

theorem bytesAt_length (pieceData : List Nat) (off len : Nat)
    (h : off + len ≤ pieceData.length) : (bytesAt pieceData off len).length = len := by
  simp [bytesAt]; omega

/-- C3: for a piece below `2^31` bytes (the range of the `int` loop counter
and of the `int` offset `i * CHUNK_SIZE`), the midstate table built by
`bruteforceBits` has exactly `pieceSize / CHUNK + 1` entries, entry 0 is the
state of `sha1_init`, and for every `k < pieceSize / CHUNK` entry `k + 1` is
`sha1_update` applied to entry `k` with the `CHUNK` bytes
`piece[k*CHUNK : (k+1)*CHUNK)`. -/
theorem midstate_table_is_reference {σ : Type} (H : Hasher σ) (pieceData : List Nat)
    (CHUNK : Nat) (hC : 0 < CHUNK) (hsmall : pieceData.length < 2 ^ 31) :
    (buildMidstates H pieceData pieceData.length CHUNK).length = pieceData.length / CHUNK + 1
    ∧ (buildMidstates H pieceData pieceData.length CHUNK)[0]? = some (some H.sha1_init)
    ∧ ∀ k, k < pieceData.length / CHUNK →
        ∃ s chunk,
          (buildMidstates H pieceData pieceData.length CHUNK)[k]? = some (some s)
          ∧ chunk = (pieceData.drop (k * CHUNK)).take CHUNK
          ∧ chunk.length = CHUNK
          ∧ (buildMidstates H pieceData pieceData.length CHUNK)[k + 1]?
              = some (some (H.sha1_update s chunk)) := by
  refine ⟨buildMidstates_length _ _ _ _,
    buildMidstates_entry H pieceData _ CHUNK hsmall 0 (Nat.zero_le _), ?_⟩
  intro k hk
  refine ⟨midstateRef H pieceData CHUNK k, _,
    buildMidstates_entry H pieceData _ CHUNK hsmall k (by omega),
    rfl, ?_, buildMidstates_entry H pieceData _ CHUNK hsmall (k + 1) (by omega)⟩
  apply bytesAt_length
  have h1 : (k + 1) * CHUNK ≤ pieceData.length / CHUNK * CHUNK := Nat.mul_le_mul_right _ hk
  have h2 := Nat.div_mul_le_self pieceData.length CHUNK
  have h3 : (k + 1) * CHUNK = k * CHUNK + CHUNK := by ring
  omega

/-- Witness of `midstate_table_is_reference`: a five-byte piece in chunks of two. -/
theorem midstate_table_is_reference_witness :
    0 < 2 ∧ [1, 2, 3, 4, 5].length < 2 ^ 31
    ∧ (buildMidstates concatHasher [1, 2, 3, 4, 5] 5 2).length = 5 / 2 + 1
    ∧ (buildMidstates concatHasher [1, 2, 3, 4, 5] 5 2)[0]? = some (some [])
    ∧ (buildMidstates concatHasher [1, 2, 3, 4, 5] 5 2)[2]? = some (some [1, 2, 3, 4]) :=
  ⟨by decide, by decide,
    (midstate_table_is_reference concatHasher [1, 2, 3, 4, 5] 2 (by decide) (by decide)).1,
    (midstate_table_is_reference concatHasher [1, 2, 3, 4, 5] 2 (by decide) (by decide)).2.1,
    by decide⟩

/-! ### Resuming from a midstate -/

theorem resume_from_reference {σ : Type} (H : Hasher σ) (hH : H.ContractAtEveryState)
    (P : List Nat) (CHUNK : Nat) (k : Nat) (hk : k * CHUNK ≤ P.length) (X : List Nat) :
    H.sha1_final (H.sha1_update (midstateRef H P CHUNK k) X)
      = H.hash (P.take (k * CHUNK) ++ X) := by
  induction k generalizing X with
  | zero => simp [midstateRef, Hasher.hash]
  | succ k ih =>
    have h3 : (k + 1) * CHUNK = k * CHUNK + CHUNK := by ring
    simp only [midstateRef]
    rw [hH, ih (by omega), h3, List.take_add, bytesAt, List.append_assoc]

/-- C2, as amended: with the hasher contract holding at every state, and for
a piece below `2^31` bytes, resuming from the k-th midstate of the table with
the rest of the piece gives the digest of the whole piece, for every `k` up
to `|P| / CHUNK`, whether or not `|P|` is a multiple of `CHUNK`. -/
theorem resume_from_midstate {σ : Type} (H : Hasher σ) (hH : H.ContractAtEveryState)
    (P : List Nat) (CHUNK : Nat) (hC : 0 < CHUNK) (hsmall : P.length < 2 ^ 31) (k : Nat)
    (hk : k ≤ P.length / CHUNK) :
    ∃ s, (buildMidstates H P P.length CHUNK)[k]? = some (some s)
      ∧ H.sha1_final (H.sha1_update s (P.drop (k * CHUNK))) = H.hash P := by
  refine ⟨_, buildMidstates_entry H P _ CHUNK hsmall k hk, ?_⟩
  have h1 : k * CHUNK ≤ P.length / CHUNK * CHUNK := Nat.mul_le_mul_right _ hk
  have h2 := Nat.div_mul_le_self P.length CHUNK
  rw [resume_from_reference H hH P CHUNK k (by omega), List.take_append_drop]

theorem concatHasher_contract : concatHasher.ContractAtEveryState := by
  intro s A B
  simp [concatHasher]

/-- Witness of `resume_from_midstate`: a five-byte piece in chunks of two,
resumed at the last boundary (offset 4, one byte left). -/
theorem resume_from_midstate_witness :
    concatHasher.ContractAtEveryState ∧ 0 < 2 ∧ [1, 2, 3, 4, 5].length < 2 ^ 31
    ∧ 2 ≤ [1, 2, 3, 4, 5].length / 2
    ∧ ∃ s, (buildMidstates concatHasher [1, 2, 3, 4, 5] [1, 2, 3, 4, 5].length 2)[2]?
          = some (some s)
        ∧ concatHasher.sha1_final (concatHasher.sha1_update s ([1, 2, 3, 4, 5].drop (2 * 2)))
          = concatHasher.hash [1, 2, 3, 4, 5] :=
  ⟨concatHasher_contract, by decide, by decide, by decide,
    resume_from_midstate concatHasher concatHasher_contract [1, 2, 3, 4, 5] 2 (by decide)
      (by decide) 2 (by decide)⟩

/-- C2 as stated fails: `countingHasher` meets the contract of spec
section 4.1 (two updates from the initial state), yet resuming from the
midstate at boundary 2 of the piece `[1, 2, 3]` (chunks of one byte) gives the
empty digest and not the digest `[1, 2, 3]` of the piece. -/
theorem resume_needs_contract_at_every_state :
    countingHasher.ContractAtInit
    ∧ 2 ≤ [1, 2, 3].length / 1
    ∧ (buildMidstates countingHasher [1, 2, 3] [1, 2, 3].length 1)[2]? = some (some ([1, 2], 2))
    ∧ countingHasher.sha1_final (countingHasher.sha1_update ([1, 2], 2) ([1, 2, 3].drop (2 * 1)))
        = []
    ∧ countingHasher.hash [1, 2, 3] = [1, 2, 3] := by
  refine ⟨?_, by decide, by decide, by decide, by decide⟩
  intro A B
  simp [countingHasher]

/-! ### Candidate index to midstate -/

theorem chunksBefore_succ (P : List Nat) (CHUNK k : Nat) :
    chunksBefore P CHUNK (k + 1) = chunksBefore P CHUNK k ++ [bytesAt P (k * CHUNK) CHUNK] := by
  simp [chunksBefore, List.range_succ]

/-- The reference midstate at boundary `k` is the state after the chunks
before `k`. -/
theorem midstateRef_eq_stateAfter {σ : Type} (H : Hasher σ) (P : List Nat) (CHUNK k : Nat) :
    midstateRef H P CHUNK k = stateAfter H (chunksBefore P CHUNK k) := by
  induction k with
  | zero => rfl
  | succ k ih =>
    rw [chunksBefore_succ]
    simp only [midstateRef, stateAfter, List.foldl_append, List.foldl_cons, List.foldl_nil]
    rw [ih]
    rfl

/-- The chunks before boundary `k` are, put together, the first `k * CHUNK`
bytes of the piece. -/
theorem chunksBefore_flatten (P : List Nat) (CHUNK k : Nat) :
    (chunksBefore P CHUNK k).flatten = P.take (k * CHUNK) := by
  induction k with
  | zero => simp [chunksBefore]
  | succ k ih =>
    have h3 : (k + 1) * CHUNK = k * CHUNK + CHUNK := by ring
    rw [chunksBefore_succ, List.flatten_append, ih, h3, List.take_add]
    simp [bytesAt]

/-- C9: for a candidate bit index `idx` of a non-empty piece below `2^31`
bytes, with `byteOffset = idx / 8` and `chunkIndex = byteOffset / CHUNK`:
`chunkIndex` is a valid index into the midstate table built by
`bruteforceBits` (which has `pieceSize / CHUNK + 1` entries); the slot holds
the hasher state after exactly the bytes `P[0 : chunkIndex * CHUNK)`, a
stretch that ends at or before `byteOffset`; and every later slot of the
table holds the state after a stretch `P[0 : j * CHUNK)` that contains
`byteOffset`, so `chunkIndex` is the largest index whose midstate does not
cover the flipped byte. -/
theorem candidate_resumes_from_last_safe_midstate {σ : Type} (H : Hasher σ)
    (P : List Nat) (CHUNK idx : Nat)
    (hp : 0 < P.length) (hC : 0 < CHUNK) (hidx : idx < P.length * 8)
    (hsmall : P.length < 2 ^ 31) :
    (buildMidstates H P P.length CHUNK).length = P.length / CHUNK + 1
    ∧ chunkIndex CHUNK idx ≤ P.length / CHUNK
    ∧ chunkIndex CHUNK idx < (buildMidstates H P P.length CHUNK).length
    ∧ (buildMidstates H P P.length CHUNK)[chunkIndex CHUNK idx]?
        = some (some (stateAfter H (chunksBefore P CHUNK (chunkIndex CHUNK idx))))
    ∧ (chunksBefore P CHUNK (chunkIndex CHUNK idx)).flatten
        = P.take (chunkIndex CHUNK idx * CHUNK)
    ∧ (P.take (chunkIndex CHUNK idx * CHUNK)).length ≤ byteOffset idx
    ∧ ∀ j, chunkIndex CHUNK idx < j → j < (buildMidstates H P P.length CHUNK).length →
        (buildMidstates H P P.length CHUNK)[j]?
          = some (some (stateAfter H (chunksBefore P CHUNK j)))
        ∧ (chunksBefore P CHUNK j).flatten = P.take (j * CHUNK)
        ∧ byteOffset idx < (P.take (j * CHUNK)).length := by
  have hbo : byteOffset idx < P.length := by
    unfold byteOffset
    omega
  have hci : chunkIndex CHUNK idx ≤ P.length / CHUNK :=
    Nat.div_le_div_right (Nat.le_of_lt hbo)
  have hle : chunkIndex CHUNK idx * CHUNK ≤ byteOffset idx := Nat.div_mul_le_self _ _
  refine ⟨buildMidstates_length _ _ _ _, hci, ?_, ?_, chunksBefore_flatten _ _ _, ?_, ?_⟩
  · rw [buildMidstates_length]
    omega
  · rw [buildMidstates_entry H P P.length CHUNK hsmall _ hci, midstateRef_eq_stateAfter]
  · rw [List.length_take]
    omega
  · intro j hj hjlen
    rw [buildMidstates_length] at hjlen
    have hjle : j ≤ P.length / CHUNK := by omega
    have h1 : j * CHUNK ≤ P.length / CHUNK * CHUNK := Nat.mul_le_mul_right _ hjle
    have h2 := Nat.div_mul_le_self P.length CHUNK
    have h3 : byteOffset idx < j * CHUNK := (Nat.div_lt_iff_lt_mul hC).1 hj
    refine ⟨?_, chunksBefore_flatten _ _ _, ?_⟩
    · rw [buildMidstates_entry H P P.length CHUNK hsmall _ hjle, midstateRef_eq_stateAfter]
    · rw [List.length_take]
      omega

/-- Witness of `candidate_resumes_from_last_safe_midstate`: bit 21 of a
five-byte piece in chunks of two lies in byte 2, chunk 1; slot 1 holds the
state after bytes 0 and 1, slot 2 the state after bytes 0 to 3. -/
theorem candidate_resumes_from_last_safe_midstate_witness :
    0 < [1, 2, 3, 4, 5].length ∧ 0 < 2 ∧ 21 < [1, 2, 3, 4, 5].length * 8
    ∧ [1, 2, 3, 4, 5].length < 2 ^ 31
    ∧ byteOffset 21 = 2 ∧ chunkIndex 2 21 = 1
    ∧ (buildMidstates concatHasher [1, 2, 3, 4, 5] [1, 2, 3, 4, 5].length 2)[chunkIndex 2 21]?
        = some (some (stateAfter concatHasher (chunksBefore [1, 2, 3, 4, 5] 2 (chunkIndex 2 21))))
    ∧ stateAfter concatHasher (chunksBefore [1, 2, 3, 4, 5] 2 (chunkIndex 2 21)) = [1, 2]
    ∧ ([1, 2, 3, 4, 5].take (chunkIndex 2 21 * 2)).length ≤ byteOffset 21 :=
  ⟨by decide, by decide, by decide, by decide, by decide, by decide,
    (candidate_resumes_from_last_safe_midstate concatHasher [1, 2, 3, 4, 5] 2 21
      (by decide) (by decide) (by decide) (by decide)).2.2.2.1,
    by decide,
    (candidate_resumes_from_last_safe_midstate concatHasher [1, 2, 3, 4, 5] 2 21
      (by decide) (by decide) (by decide) (by decide)).2.2.2.2.2.1⟩

/-! ### Launch geometry -/

theorem blocksPerGrid_of_small (pieceSize BATCH : Nat) (h : pieceSize / BATCH < 2 ^ 32) :
    blocksPerGrid pieceSize BATCH = ((pieceSize / BATCH + 1023) / 1024 : Nat) := by
  unfold blocksPerGrid toInt32 threadsPerBlock
  generalize pieceSize / BATCH = q at h ⊢
  have h2 : (q + 1024 - 1) % 2 ^ 64 = q + 1023 := by omega
  rw [h2]
  have h3 : (q + 1023) / 1024 < 2 ^ 31 := by omega
  have h4 : (q + 1023) / 1024 % 2 ^ 32 = (q + 1023) / 1024 := by omega
  rw [h4, if_pos h3]

theorem launchedWorkers_of_small (pieceSize BATCH : Nat) (h : pieceSize / BATCH < 2 ^ 32) :
    launchedWorkers pieceSize BATCH = (pieceSize / BATCH + 1023) / 1024 * 1024 := by
  unfold launchedWorkers gridDimX
  rw [blocksPerGrid_of_small pieceSize BATCH h]
  generalize pieceSize / BATCH = q at h ⊢
  have : ((((q + 1023) / 1024 : Nat) : Int) % 2 ^ 32).toNat = (q + 1023) / 1024 := by
    omega
  rw [this, threadsPerBlock]

/-- C4, as amended: for a piece size below `2^32` that is a positive
multiple of `BATCH`, the launch creates at least one worker and
`workers * BATCH >= pieceSize`, so every index in `[0, pieceSize)` lies in
the batch of a launched worker. -/
theorem dispatch_covers_piece_size (pieceSize BATCH : Nat) (hp : 0 < pieceSize)
    (hB : 0 < BATCH) (hdvd : BATCH ∣ pieceSize) (hsmall : pieceSize < 2 ^ 32) :
    0 < launchedWorkers pieceSize BATCH
    ∧ pieceSize ≤ launchedWorkers pieceSize BATCH * BATCH
    ∧ ∀ idx, idx < pieceSize →
        ∃ w, w < launchedWorkers pieceSize BATCH ∧ InBatch BATCH w idx := by
  rw [launchedWorkers_of_small pieceSize BATCH
    (Nat.lt_of_le_of_lt (Nat.div_le_self _ _) hsmall)]
  obtain ⟨q, rfl⟩ := hdvd
  have hq : 0 < q := Nat.pos_of_mul_pos_left hp
  have hdiv : BATCH * q / BATCH = q := Nat.mul_div_cancel_left q hB
  rw [hdiv]
  have hw : q ≤ (q + 1023) / 1024 * 1024 := by omega
  refine ⟨by omega, ?_, ?_⟩
  · calc BATCH * q = q * BATCH := Nat.mul_comm _ _
      _ ≤ (q + 1023) / 1024 * 1024 * BATCH := Nat.mul_le_mul_right _ hw
  · intro idx hidx
    refine ⟨idx / BATCH, ?_, ?_⟩
    · have : idx / BATCH < q := (Nat.div_lt_iff_lt_mul hB).2 (by rwa [Nat.mul_comm] at hidx)
      omega
    · unfold InBatch
      constructor
      · exact Nat.div_mul_le_self _ _
      · rw [Nat.mul_comm]
        exact Nat.lt_mul_div_succ idx hB

/-- Witness of `dispatch_covers_piece_size`: a 64-byte piece with batches of 8. -/
theorem dispatch_covers_piece_size_witness :
    0 < 64 ∧ 0 < 8 ∧ 8 ∣ 64 ∧ 64 < 2 ^ 32 ∧ 0 < launchedWorkers 64 8
    ∧ 64 ≤ launchedWorkers 64 8 * 8 :=
  ⟨by decide, by decide, by decide, by decide,
    (dispatch_covers_piece_size 64 8 (by decide) (by decide) (by decide) (by decide)).1,
    (dispatch_covers_piece_size 64 8 (by decide) (by decide) (by decide) (by decide)).2.1⟩

/-- C4 as stated fails.  A one-byte piece with `BATCH = 2` launches no
worker at all; a 1024-byte piece with `BATCH = 1` launches 1024 workers,
whose batches hold 1024 of the 8192 candidate indices, so index 8191 is in
no launched batch; and a piece of `2^42` bytes with `BATCH = 1` launches no
worker because the block count does not fit the 32-bit grid size. -/
theorem dispatch_does_not_cover_all_candidates :
    (0 < 1 ∧ 0 < 2 ∧ launchedWorkers 1 2 = 0)
    ∧ (0 < 1024 ∧ 0 < 1 ∧ launchedWorkers 1024 1 = 1024
        ∧ launchedWorkers 1024 1 * 1 < 1024 * 8
        ∧ 8191 < 1024 * 8
        ∧ ¬ ∃ w, w < launchedWorkers 1024 1 ∧ InBatch 1 w 8191)
    ∧ (0 < 2 ^ 42 ∧ 1 ∣ 2 ^ 42 ∧ launchedWorkers (2 ^ 42) 1 = 0) := by
  have h1 : launchedWorkers 1 2 = 0 := by decide
  have h2 : launchedWorkers 1024 1 = 1024 := by decide
  have h3 : launchedWorkers (2 ^ 42) 1 = 0 := by decide
  refine ⟨⟨by decide, by decide, h1⟩, ⟨by decide, by decide, h2, by rw [h2]; decide, by decide, ?_⟩,
    ⟨by decide, one_dvd _, h3⟩⟩
  rintro ⟨w, hw, hin⟩
  rw [h2] at hw
  unfold InBatch at hin
  omega

/-- Whatever the value of `BATCH`, some piece size leaves candidate indices
outside every launched batch. -/
theorem dispatch_undercovers_for_every_batch_size (BATCH : Nat) (hB : 0 < BATCH) :
    ∃ pieceSize, 0 < pieceSize ∧ launchedWorkers pieceSize BATCH * BATCH < pieceSize * 8 := by
  by_cases h1 : BATCH = 1
  · subst h1
    exact ⟨1024, by decide, by decide⟩
  · refine ⟨1, by decide, ?_⟩
    have h0 : 1 / BATCH = 0 := Nat.div_eq_of_lt (by omega)
    rw [launchedWorkers_of_small 1 BATCH (by rw [h0]; decide), h0]
    simp

/-! ### Hexadecimal decoding -/

theorem indexOf?_none_of_not_ascii (c : Char) (s : String) (h : ¬ c.toNat < 128)
    (hs : ∀ d ∈ s.toList, d.toNat < 128) : s.toList.indexOf? c = none := by
  unfold List.indexOf?
  rw [List.findIdx?_eq_none_iff]
  intro d hd
  rw [beq_eq_false_iff_ne]
  rintro rfl
  exact h (hs d hd)

theorem hexDigitValue_none_of_not_ascii (c : Char) (h : ¬ c.toNat < 128) :
    hexDigitValue c = none := by
  unfold hexDigitValue
  rw [indexOf?_none_of_not_ascii c _ h (by decide), indexOf?_none_of_not_ascii c _ h (by decide)]

theorem hexVal_eq_hexDigitValue (c : Char) : hexVal c = hexDigitValue c := by
  by_cases h : c.toNat < 128
  · have hc : c = Char.ofNat c.toNat := (Char.ofNat_toNat c).symm
    generalize c.toNat = n at h hc
    subst hc
    interval_cases n <;> rfl
  · rw [hexDigitValue_none_of_not_ascii c h]
    have h0 : '0'.toNat = 48 := rfl
    have h9 : '9'.toNat = 57 := rfl
    have ha : 'a'.toNat = 97 := rfl
    have hf : 'f'.toNat = 102 := rfl
    have hA : 'A'.toNat = 65 := rfl
    have hF : 'F'.toNat = 70 := rfl
    unfold hexVal
    rw [h0, h9, ha, hf, hA, hF]
    rw [if_neg (by omega), if_neg (by omega), if_neg (by omega)]
theorem hexVal_some_bounds (c : Char) (v : Nat) (h : hexVal c = some v) :
    v < 16 ∧ 48 ≤ c.toNat ∧ c.toNat ≤ 102 := by
  have h0 : '0'.toNat = 48 := rfl
  have h9 : '9'.toNat = 57 := rfl
  have ha : 'a'.toNat = 97 := rfl
  have hf : 'f'.toNat = 102 := rfl
  have hA : 'A'.toNat = 65 := rfl
  have hF : 'F'.toNat = 70 := rfl
  unfold hexVal at h
  rw [h0, h9, ha, hf, hA, hF] at h
  split_ifs at h with g1 g2 g3 <;> simp at h <;> omega

theorem isSpaceC_of_hexVal (c : Char) (v : Nat) (h : hexVal c = some v) :
    isSpaceC c = false := by
  have hb := hexVal_some_bounds c v h
  have e1 : c ≠ ' ' := by rintro rfl; have := hb.2.1; revert this; decide
  have e2 : c ≠ '\t' := by rintro rfl; have := hb.2.1; revert this; decide
  have e3 : c ≠ '\n' := by rintro rfl; have := hb.2.1; revert this; decide
  have e4 : c ≠ '\r' := by rintro rfl; have := hb.2.1; revert this; decide
  have e5 : c.toNat ≠ 11 := by omega
  have e6 : c.toNat ≠ 12 := by omega
  simp [isSpaceC, e1, e2, e3, e4, e5, e6]

theorem strtoul16_two_hex (c1 c2 : Char) (v1 v2 : Nat)
    (h1 : hexVal c1 = some v1) (h2 : hexVal c2 = some v2) :
    strtoul16 [c1, c2] % 256 = 16 * v1 + v2 := by
  have hb1 := hexVal_some_bounds c1 v1 h1
  have hb2 := hexVal_some_bounds c2 v2 h2
  have hs := isSpaceC_of_hexVal c1 v1 h1
  have em : c1 ≠ '-' := by rintro rfl; have := hb1.2.1; revert this; decide
  have ep : c1 ≠ '+' := by rintro rfl; have := hb1.2.1; revert this; decide
  have hv : hexDigitsValue 0 [c1, c2] = 16 * v1 + v2 := by
    simp [hexDigitsValue, h1, h2]
  unfold strtoul16
  simp [hs, em, ep, hv]
  omega

theorem hexStringToBytes_odd (s : List Char) (l0 : Nat) (h : s.length % 2 = 1) :
    hexStringToBytes s l0 = (none, l0) := by
  unfold hexStringToBytes
  simp [h]

theorem hexStringToBytes_even (s : List Char) (l0 : Nat) (h : s.length % 2 = 0) :
    hexStringToBytes s l0
      = (some ((List.range (s.length / 2)).map fun i =>
          strtoul16 [s.getD (2 * i) 'x', s.getD (2 * i + 1) 'x'] % 256), s.length / 2) := by
  unfold hexStringToBytes
  simp [h]

/-- C8: on an even-length string of hexadecimal digits `hexStringToBytes`
returns `|s| / 2` bytes and sets `byteArrayLength` to `|s| / 2`, byte `i`
being `16 * value(s[2i]) + value(s[2i+1])`; on an odd-length string it
returns null and leaves `byteArrayLength` as it was. -/
theorem hexStringToBytes_decodes (s : List Char) (byteArrayLength : Nat) :
    (s.length % 2 = 0 → (∀ c ∈ s, (hexDigitValue c).isSome) →
      ∃ bytes, hexStringToBytes s byteArrayLength = (some bytes, s.length / 2)
        ∧ bytes.length = s.length / 2
        ∧ ∀ i, i < s.length / 2 →
            ∃ hi lo, s[2 * i]?.bind hexDigitValue = some hi
              ∧ s[2 * i + 1]?.bind hexDigitValue = some lo
              ∧ bytes[i]? = some (16 * hi + lo))
    ∧ (s.length % 2 = 1 → hexStringToBytes s byteArrayLength = (none, byteArrayLength)) := by
  refine ⟨?_, hexStringToBytes_odd s byteArrayLength⟩
  intro heven hhex
  refine ⟨_, hexStringToBytes_even s byteArrayLength heven, by simp, ?_⟩
  intro i hi
  have hi0 : 2 * i < s.length := by omega
  have hi1 : 2 * i + 1 < s.length := by omega
  obtain ⟨a, ha⟩ := Option.isSome_iff_exists.1 (hhex s[2 * i] (List.getElem_mem hi0))
  obtain ⟨b, hb⟩ := Option.isSome_iff_exists.1 (hhex s[2 * i + 1] (List.getElem_mem hi1))
  refine ⟨a, b, ?_, ?_, ?_⟩
  · simp [List.getElem?_eq_getElem hi0, ha]
  · simp [List.getElem?_eq_getElem hi1, hb]
  · rw [List.getElem?_map, List.getElem?_range hi]
    simp only [Option.map_some']
    rw [List.getD_eq_getElem _ _ hi0, List.getD_eq_getElem _ _ hi1]
    rw [strtoul16_two_hex _ _ a b (by rw [hexVal_eq_hexDigitValue]; exact ha)
      (by rw [hexVal_eq_hexDigitValue]; exact hb)]

/-- Witness of `hexStringToBytes_decodes`: `1aF0` decodes to the bytes 26 and
240, and `abc` is refused with the length left at 7. -/
theorem hexStringToBytes_decodes_witness :
    hexStringToBytes ['1', 'a', 'F', '0'] 7 = (some [26, 240], 2)
    ∧ hexStringToBytes ['a', 'b', 'c'] 7 = (none, 7) :=
  ⟨by
    obtain ⟨bytes, h, -, -⟩ :=
      (hexStringToBytes_decodes ['1', 'a', 'F', '0'] 7).1 (by decide) (by decide)
    rw [h]
    exact h.symm.trans (by decide),
   (hexStringToBytes_decodes ['a', 'b', 'c'] 7).2 (by decide)⟩

/-! ### Runs of `bruteforceBits` -/

/-- The three shapes of a run of `bruteforceBits`: a call before the
read-back fails, the read-back itself fails, or every call succeeds. -/
theorem bruteforceBits_outcome {σ : Type} (H : Hasher σ) (CHUNK BATCH : Nat)
    (status : DevCall → Bool) (kernel : Kernel σ) (pieceData pieceHash : List Nat)
    (pieceSize : Nat) (result : Cell) :
    (∃ pre c msg, c ≠ DevCall.readBack ∧ status c = false
      ∧ bruteforceBits H CHUNK BATCH status kernel pieceData pieceHash pieceSize result
          = errorExit result (pre ++ [Event.call c false, Event.stderr msg])
      ∧ ∀ e ∈ pre, e = Event.hostMidstates (buildMidstates H pieceData pieceSize CHUNK).length
          ∨ ∃ d, e = Event.call d true ∧ d ≠ DevCall.readBack)
    ∨ ((∀ d, d ≠ DevCall.readBack → status d = true) ∧ status DevCall.readBack = false
      ∧ bruteforceBits H CHUNK BATCH status kernel pieceData pieceHash pieceSize result
          = errorExit result
              (Event.hostMidstates (buildMidstates H pieceData pieceSize CHUNK).length
                :: (callOrder.dropLast.map fun d => Event.call d true)
                ++ [Event.call DevCall.readBack false, Event.stderr "hipMemcpy failed!"]))
    ∨ ((∀ d, status d = true)
      ∧ bruteforceBits H CHUNK BATCH status kernel pieceData pieceHash pieceSize result
          = errorExit
              (kernel (gridDimX (blocksPerGrid pieceSize BATCH)) threadsPerBlock
                (pieceData.take pieceSize) (pieceHash.take 20)
                ((buildMidstates H pieceData pieceSize CHUNK).take (pieceSize / CHUNK + 1))
                pieceSize result)
              (Event.hostMidstates (buildMidstates H pieceData pieceSize CHUNK).length
                :: callOrder.map fun d => Event.call d true)) := by
  unfold bruteforceBits
  by_cases h1 : status DevCall.setDevice = true; swap
  · left
    refine ⟨[Event.hostMidstates (buildMidstates H pieceData pieceSize CHUNK).length],
      DevCall.setDevice, "hipSetDevice failed!", by decide, by simpa using h1, ?_, by simp⟩
    simp only [attempt, h1, if_true, Bool.false_eq_true, if_false, List.cons_append, List.nil_append]
  by_cases h2 : status DevCall.mallocPieceData = true; swap
  · left
    refine ⟨[Event.hostMidstates (buildMidstates H pieceData pieceSize CHUNK).length, Event.call DevCall.setDevice true],
      DevCall.mallocPieceData, "hipMalloc failed!", by decide, by simpa using h2, ?_, by simp⟩
    simp only [attempt, h1, h2, if_true, Bool.false_eq_true, if_false, List.cons_append, List.nil_append]
  by_cases h3 : status DevCall.mallocPieceHash = true; swap
  · left
    refine ⟨[Event.hostMidstates (buildMidstates H pieceData pieceSize CHUNK).length, Event.call DevCall.setDevice true, Event.call DevCall.mallocPieceData true],
      DevCall.mallocPieceHash, "hipMalloc failed!", by decide, by simpa using h3, ?_, by simp⟩
    simp only [attempt, h1, h2, h3, if_true, Bool.false_eq_true, if_false, List.cons_append, List.nil_append]
  by_cases h4 : status DevCall.mallocMidstates = true; swap
  · left
    refine ⟨[Event.hostMidstates (buildMidstates H pieceData pieceSize CHUNK).length, Event.call DevCall.setDevice true, Event.call DevCall.mallocPieceData true, Event.call DevCall.mallocPieceHash true],
      DevCall.mallocMidstates, "hipMalloc failed!", by decide, by simpa using h4, ?_, by simp⟩
    simp only [attempt, h1, h2, h3, h4, if_true, Bool.false_eq_true, if_false, List.cons_append, List.nil_append]
  by_cases h5 : status DevCall.mallocResult = true; swap
  · left
    refine ⟨[Event.hostMidstates (buildMidstates H pieceData pieceSize CHUNK).length, Event.call DevCall.setDevice true, Event.call DevCall.mallocPieceData true, Event.call DevCall.mallocPieceHash true, Event.call DevCall.mallocMidstates true],
      DevCall.mallocResult, "hipMalloc failed!", by decide, by simpa using h5, ?_, by simp⟩
    simp only [attempt, h1, h2, h3, h4, h5, if_true, Bool.false_eq_true, if_false, List.cons_append, List.nil_append]
  by_cases h6 : status DevCall.copyPieceData = true; swap
  · left
    refine ⟨[Event.hostMidstates (buildMidstates H pieceData pieceSize CHUNK).length, Event.call DevCall.setDevice true, Event.call DevCall.mallocPieceData true, Event.call DevCall.mallocPieceHash true, Event.call DevCall.mallocMidstates true, Event.call DevCall.mallocResult true],
      DevCall.copyPieceData, "hipMemcpy failed!", by decide, by simpa using h6, ?_, by simp⟩
    simp only [attempt, h1, h2, h3, h4, h5, h6, if_true, Bool.false_eq_true, if_false, List.cons_append, List.nil_append]
  by_cases h7 : status DevCall.copyPieceHash = true; swap
  · left
    refine ⟨[Event.hostMidstates (buildMidstates H pieceData pieceSize CHUNK).length, Event.call DevCall.setDevice true, Event.call DevCall.mallocPieceData true, Event.call DevCall.mallocPieceHash true, Event.call DevCall.mallocMidstates true, Event.call DevCall.mallocResult true, Event.call DevCall.copyPieceData true],
      DevCall.copyPieceHash, "hipMemcpy failed!", by decide, by simpa using h7, ?_, by simp⟩
    simp only [attempt, h1, h2, h3, h4, h5, h6, h7, if_true, Bool.false_eq_true, if_false, List.cons_append, List.nil_append]
  by_cases h8 : status DevCall.copyMidstates = true; swap
  · left
    refine ⟨[Event.hostMidstates (buildMidstates H pieceData pieceSize CHUNK).length, Event.call DevCall.setDevice true, Event.call DevCall.mallocPieceData true, Event.call DevCall.mallocPieceHash true, Event.call DevCall.mallocMidstates true, Event.call DevCall.mallocResult true, Event.call DevCall.copyPieceData true, Event.call DevCall.copyPieceHash true],
      DevCall.copyMidstates, "hipMemcpy failed!", by decide, by simpa using h8, ?_, by simp⟩
    simp only [attempt, h1, h2, h3, h4, h5, h6, h7, h8, if_true, Bool.false_eq_true, if_false, List.cons_append, List.nil_append]
  by_cases h9 : status DevCall.copyResult = true; swap
  · left
    refine ⟨[Event.hostMidstates (buildMidstates H pieceData pieceSize CHUNK).length, Event.call DevCall.setDevice true, Event.call DevCall.mallocPieceData true, Event.call DevCall.mallocPieceHash true, Event.call DevCall.mallocMidstates true, Event.call DevCall.mallocResult true, Event.call DevCall.copyPieceData true, Event.call DevCall.copyPieceHash true, Event.call DevCall.copyMidstates true],
      DevCall.copyResult, "hipMemcpy failed!", by decide, by simpa using h9, ?_, by simp⟩
    simp only [attempt, h1, h2, h3, h4, h5, h6, h7, h8, h9, if_true, Bool.false_eq_true, if_false, List.cons_append, List.nil_append]
  by_cases h10 : status DevCall.launch = true; swap
  · left
    refine ⟨[Event.hostMidstates (buildMidstates H pieceData pieceSize CHUNK).length, Event.call DevCall.setDevice true, Event.call DevCall.mallocPieceData true, Event.call DevCall.mallocPieceHash true, Event.call DevCall.mallocMidstates true, Event.call DevCall.mallocResult true, Event.call DevCall.copyPieceData true, Event.call DevCall.copyPieceHash true, Event.call DevCall.copyMidstates true, Event.call DevCall.copyResult true],
      DevCall.launch, "kernel launch failed: %s\n", by decide, by simpa using h10, ?_, by simp⟩
    simp only [attempt, h1, h2, h3, h4, h5, h6, h7, h8, h9, h10, if_true, Bool.false_eq_true, if_false, List.cons_append, List.nil_append]
  by_cases h11 : status DevCall.synchronize = true; swap
  · left
    refine ⟨[Event.hostMidstates (buildMidstates H pieceData pieceSize CHUNK).length, Event.call DevCall.setDevice true, Event.call DevCall.mallocPieceData true, Event.call DevCall.mallocPieceHash true, Event.call DevCall.mallocMidstates true, Event.call DevCall.mallocResult true, Event.call DevCall.copyPieceData true, Event.call DevCall.copyPieceHash true, Event.call DevCall.copyMidstates true, Event.call DevCall.copyResult true, Event.call DevCall.launch true],
      DevCall.synchronize,
      "hipDeviceSynchronize returned error code %d after launching kernel!\n", by decide, by simpa using h11, ?_, by simp⟩
    simp only [attempt, h1, h2, h3, h4, h5, h6, h7, h8, h9, h10, h11, if_true, Bool.false_eq_true, if_false, List.cons_append, List.nil_append]
  have hrest : ∀ d, d ≠ DevCall.readBack → status d = true := by
    intro d hd
    cases d <;> first | assumption | exact absurd rfl hd
  by_cases h12 : status DevCall.readBack = true; swap
  · right; left
    refine ⟨hrest, by simpa using h12, ?_⟩
    simp only [attempt, h1, h2, h3, h4, h5, h6, h7, h8, h9, h10, h11, h12, if_true,
      Bool.false_eq_true, if_false, List.cons_append, List.nil_append, callOrder, List.dropLast,
      List.map]
  · right; right
    refine ⟨fun d => by cases d <;> assumption, ?_⟩
    simp only [attempt, h1, h2, h3, h4, h5, h6, h7, h8, h9, h10, h11, h12, if_true,
      List.cons_append, List.nil_append, callOrder, List.map]

theorem errorExit_result (result : Cell) (events : List Event) :
    (errorExit result events).result = result := rfl

theorem errorExit_events (result : Cell) (events : List Event) :
    (errorExit result events).events
      = events ++ [Event.hipFree DevBuf.pieceData, Event.hipFree DevBuf.pieceHash,
          Event.hipFree DevBuf.midstates, Event.hipFree DevBuf.result, Event.deleteMidstates] :=
  rfl

/-- C10: in every run of `bruteforceBits` a read-back of the result cell
comes directly after a kernel launch that reported no error and a
`hipDeviceSynchronize` that succeeded, all earlier device calls having
succeeded; when any call before the read-back fails there is no read-back
and `*result` keeps its value; and `*result` only changes in a run where
every call succeeded. -/
theorem read_back_only_after_barrier {σ : Type} (H : Hasher σ) (CHUNK BATCH : Nat)
    (status : DevCall → Bool) (kernel : Kernel σ) (pieceData pieceHash : List Nat)
    (pieceSize : Nat) (result : Cell) :
    (∀ ok, Event.call DevCall.readBack ok ∈
        (bruteforceBits H CHUNK BATCH status kernel pieceData pieceHash pieceSize result).events →
      (∀ d, d ≠ DevCall.readBack → status d = true)
      ∧ ∃ pre post,
          (bruteforceBits H CHUNK BATCH status kernel pieceData pieceHash pieceSize result).events
            = pre ++ Event.call DevCall.launch true :: Event.call DevCall.synchronize true
                :: Event.call DevCall.readBack ok :: post)
    ∧ ((∃ d, d ≠ DevCall.readBack ∧ status d = false) →
        (∀ ok, Event.call DevCall.readBack ok ∉
          (bruteforceBits H CHUNK BATCH status kernel pieceData pieceHash pieceSize result).events)
        ∧ (bruteforceBits H CHUNK BATCH status kernel pieceData pieceHash pieceSize result).result
            = result)
    ∧ ((bruteforceBits H CHUNK BATCH status kernel pieceData pieceHash pieceSize result).result
          ≠ result → ∀ d, status d = true) := by
  have hnot : ∀ (pre : List Event) (c : DevCall) (msg : String) (ok : Bool),
      c ≠ DevCall.readBack →
      (∀ e ∈ pre, e = Event.hostMidstates (buildMidstates H pieceData pieceSize CHUNK).length
          ∨ ∃ d, e = Event.call d true ∧ d ≠ DevCall.readBack) →
      Event.call DevCall.readBack ok ∉
        (errorExit result (pre ++ [Event.call c false, Event.stderr msg])).events := by
    intro pre c msg ok hc hpre hmem
    rw [errorExit_events, List.mem_append, List.mem_append] at hmem
    rcases hmem with (hm | hm) | hm
    · rcases hpre _ hm with h1 | ⟨d, h1, hd⟩
      · cases h1
      · cases h1
        exact hd rfl
    · simp only [List.mem_cons, Event.call.injEq, List.mem_singleton, List.not_mem_nil,
        or_false, reduceCtorEq] at hm
      exact hc hm.1.symm
    · simp at hm
  rcases bruteforceBits_outcome H CHUNK BATCH status kernel pieceData pieceHash pieceSize result
    with ⟨pre, c, msg, hc, hfail, hrun, hpre⟩ | ⟨hrest, hrb, hrun⟩ | ⟨hall, hrun⟩
  · rw [hrun]
    refine ⟨fun ok hmem => absurd hmem (hnot pre c msg ok hc hpre),
      fun _ => ⟨fun ok => hnot pre c msg ok hc hpre, rfl⟩, fun h => absurd rfl h⟩
  · rw [hrun]
    refine ⟨fun ok hmem => ⟨hrest, ?_⟩, ?_, fun h => absurd rfl h⟩
    · have hok : ok = false := by
        rw [errorExit_events] at hmem
        simp [callOrder] at hmem
        exact hmem
      subst hok
      exact ⟨Event.hostMidstates (buildMidstates H pieceData pieceSize CHUNK).length
          :: ((callOrder.take 9).map fun d => Event.call d true),
        [Event.stderr "hipMemcpy failed!", Event.hipFree DevBuf.pieceData,
          Event.hipFree DevBuf.pieceHash, Event.hipFree DevBuf.midstates,
          Event.hipFree DevBuf.result, Event.deleteMidstates], rfl⟩
    · rintro ⟨d, hd, hdf⟩
      rw [hrest d hd] at hdf
      cases hdf
  · rw [hrun]
    refine ⟨fun ok hmem => ⟨fun d _ => hall d, ?_⟩, ?_, fun _ => hall⟩
    · have hok : ok = true := by
        rw [errorExit_events] at hmem
        simp [callOrder] at hmem
        exact hmem
      subst hok
      exact ⟨Event.hostMidstates (buildMidstates H pieceData pieceSize CHUNK).length
          :: ((callOrder.take 9).map fun d => Event.call d true),
        [Event.hipFree DevBuf.pieceData,
          Event.hipFree DevBuf.pieceHash, Event.hipFree DevBuf.midstates,
          Event.hipFree DevBuf.result, Event.deleteMidstates], rfl⟩
    · rintro ⟨d, _, hdf⟩
      rw [hall d] at hdf
      cases hdf

/-- Witness of `read_back_only_after_barrier`: when `hipDeviceSynchronize`
fails nothing is read back and the sentinel stays in `*result`. -/
theorem read_back_only_after_barrier_witness :
    (∀ ok, Event.call DevCall.readBack ok ∉
      (bruteforceBits toyHasher 16 8 (failAt DevCall.synchronize) (bitFlipKernel toyHasher 16 8)
        zeros64 (toyHasher.hash zeros64) 64 sentinel).events)
    ∧ (bruteforceBits toyHasher 16 8 (failAt DevCall.synchronize) (bitFlipKernel toyHasher 16 8)
        zeros64 (toyHasher.hash zeros64) 64 sentinel).result = sentinel :=
  (read_back_only_after_barrier toyHasher 16 8 (failAt DevCall.synchronize)
    (bitFlipKernel toyHasher 16 8) zeros64 (toyHasher.hash zeros64) 64 sentinel).2.1
    ⟨DevCall.synchronize, by decide, by decide⟩

/-- C5, as amended: when a device call of `bruteforceBits` fails, a
diagnostic goes to stderr and `*result` is left holding the value the caller
put there; a run in which every call succeeds writes nothing to stderr. -/
theorem resource_failure_reported_on_stderr_only {σ : Type} (H : Hasher σ) (CHUNK BATCH : Nat)
    (status : DevCall → Bool) (kernel : Kernel σ) (pieceData pieceHash : List Nat)
    (pieceSize : Nat) (result : Cell) :
    ((∃ c, status c = false) →
      (bruteforceBits H CHUNK BATCH status kernel pieceData pieceHash pieceSize result).result
          = result
      ∧ ∃ msg, Event.stderr msg ∈
          (bruteforceBits H CHUNK BATCH status kernel pieceData pieceHash pieceSize
            result).events)
    ∧ ((∀ c, status c = true) →
      ∀ msg, Event.stderr msg ∉
        (bruteforceBits H CHUNK BATCH status kernel pieceData pieceHash pieceSize
          result).events) := by
  rcases bruteforceBits_outcome H CHUNK BATCH status kernel pieceData pieceHash pieceSize result
    with ⟨pre, c, msg, hc, hfail, hrun, hpre⟩ | ⟨hrest, hrb, hrun⟩ | ⟨hall, hrun⟩
  · rw [hrun]
    refine ⟨fun _ => ⟨rfl, msg, ?_⟩, fun hall => ?_⟩
    · rw [errorExit_events]
      simp
    · rw [hall c] at hfail
      cases hfail
  · rw [hrun]
    refine ⟨fun _ => ⟨rfl, "hipMemcpy failed!", ?_⟩, fun hall => ?_⟩
    · rw [errorExit_events]
      simp
    · rw [hall DevCall.readBack] at hrb
      cases hrb
  · rw [hrun]
    refine ⟨?_, fun _ msg hmem => ?_⟩
    · rintro ⟨c, hc⟩
      rw [hall c] at hc
      cases hc
    · rw [errorExit_events] at hmem
      simp [callOrder] at hmem

/-- Witness of `resource_failure_reported_on_stderr_only`: the allocation of
the result cell fails. -/
theorem resource_failure_reported_on_stderr_only_witness :
    (bruteforceBits toyHasher 16 8 (failAt DevCall.mallocResult) (bitFlipKernel toyHasher 16 8)
        zeros64 (toyHasher.hash zeros64) 64 sentinel).result = sentinel
    ∧ ∃ msg, Event.stderr msg ∈
        (bruteforceBits toyHasher 16 8 (failAt DevCall.mallocResult)
          (bitFlipKernel toyHasher 16 8) zeros64 (toyHasher.hash zeros64) 64 sentinel).events :=
  (resource_failure_reported_on_stderr_only toyHasher 16 8 (failAt DevCall.mallocResult)
    (bitFlipKernel toyHasher 16 8) zeros64 (toyHasher.hash zeros64) 64 sentinel).1
    ⟨DevCall.mallocResult, by decide⟩

theorem hexStringToBytes_length (s : List Char) (l0 : Nat) :
    (hexStringToBytes s l0).2 = if s.length % 2 = 0 then s.length / 2 else l0 := by
  unfold hexStringToBytes
  split <;> simp_all

/-! ### Empty pieces -/

/-- The trace of a run starts with the events in `t`. -/
theorem errorExit_extends (result : Cell) (t : List Event) :
    ∃ rest, (errorExit result t).events = t ++ rest :=
  ⟨_, rfl⟩

theorem attempt_extends (status : DevCall → Bool) (c : DevCall) (msg : String) (result : Cell)
    (t : List Event) (next : List Event → Run)
    (hnext : ∀ t', ∃ rest, (next t').events = t' ++ rest) :
    ∃ rest, (attempt status c msg result t next).events = t ++ rest := by
  unfold attempt
  split
  · obtain ⟨rest, h⟩ := hnext (t ++ [Event.call c true])
    exact ⟨[Event.call c true] ++ rest, by rw [h, List.append_assoc]⟩
  · obtain ⟨rest, h⟩ := errorExit_extends result (t ++ [Event.call c false, Event.stderr msg])
    exact ⟨[Event.call c false, Event.stderr msg] ++ rest, by rw [h, List.append_assoc]⟩

/-- Every run starts by building the host midstate table and calling
`hipSetDevice`. -/
theorem bruteforceBits_first_events {σ : Type} (H : Hasher σ) (CHUNK BATCH : Nat)
    (status : DevCall → Bool) (kernel : Kernel σ) (pieceData pieceHash : List Nat)
    (pieceSize : Nat) (result : Cell) :
    ∃ rest,
      (bruteforceBits H CHUNK BATCH status kernel pieceData pieceHash pieceSize result).events
        = Event.hostMidstates (pieceSize / CHUNK + 1)
            :: Event.call DevCall.setDevice (status DevCall.setDevice) :: rest := by
  unfold bruteforceBits
  simp only [buildMidstates_length]
  by_cases h : status DevCall.setDevice = true
  · rw [attempt, if_pos h, h]
    change ∃ rest, _ = ([Event.hostMidstates (pieceSize / CHUNK + 1)]
      ++ [Event.call DevCall.setDevice true]) ++ rest
    repeat (first | exact errorExit_extends _ _ | (apply attempt_extends; intro _))
  · have h' : status DevCall.setDevice = false := by simpa using h
    rw [attempt, if_neg h, h']
    exact ⟨_, rfl⟩

theorem blocksPerGrid_zero (BATCH : Nat) : gridDimX (blocksPerGrid 0 BATCH) = 0 := by
  unfold blocksPerGrid
  rw [Nat.zero_div]
  decide

/-- C7, as amended: a piece of size 0 is not rejected.  `bruteforceBits`
builds the one-slot midstate table holding the initial state and goes on to
the device calls, `hipSetDevice` first; when every call succeeds the kernel
is launched with a grid of 0 blocks and its result cell is read back.  And
`main`, given an empty readable piece file and a 40-character hash, calls
`bruteforceBits` with piece size 0. -/
theorem empty_piece_is_searched {σ : Type} (H : Hasher σ) (CHUNK BATCH : Nat)
    (status : DevCall → Bool) (kernel : Kernel σ) (pieceData pieceHash : List Nat)
    (result : Cell) (hC : 0 < CHUNK) (hB : 0 < BATCH) :
    buildMidstates H pieceData 0 CHUNK = [some H.sha1_init]
    ∧ (∃ rest,
        (bruteforceBits H CHUNK BATCH status kernel pieceData pieceHash 0 result).events
          = Event.hostMidstates 1 :: Event.call DevCall.setDevice (status DevCall.setDevice)
              :: rest)
    ∧ ((∀ d, status d = true) →
        bruteforceBits H CHUNK BATCH status kernel pieceData pieceHash 0 result
          = errorExit (kernel 0 threadsPerBlock [] (pieceHash.take 20) [some H.sha1_init] 0 result)
              (Event.hostMidstates 1 :: callOrder.map fun d => Event.call d true))
    ∧ ∀ (fs : List Char → Option PieceFile) (resetOk : Bool) (prog path hash : List Char),
        fs path = some ⟨[], true⟩ → hash.length = 40 →
        ∃ events, MainEvent.search 0 events ∈
          (main H CHUNK BATCH fs status resetOk kernel [prog, path, hash]).2 := by
  have hb : buildMidstates H pieceData 0 CHUNK = [some H.sha1_init] := by
    simp [buildMidstates, midstatesLength, midstateLoop]
  refine ⟨hb, ?_, ?_, ?_⟩
  · have := bruteforceBits_first_events H CHUNK BATCH status kernel pieceData pieceHash 0 result
    simpa using this
  · intro hall
    rcases bruteforceBits_outcome H CHUNK BATCH status kernel pieceData pieceHash 0 result
      with ⟨pre, c, msg, hc, hfail, hrun, hpre⟩ | ⟨hrest, hrb, hrun⟩ | ⟨_, hrun⟩
    · rw [hall c] at hfail
      cases hfail
    · rw [hall DevCall.readBack] at hrb
      cases hrb
    · rw [hrun, hb, blocksPerGrid_zero]
      simp
  · intro fs resetOk prog path hash hfs h40
    have hlen : (hexStringToBytes hash 0).2 = 20 := by
      rw [hexStringToBytes_length]
      split <;> omega
    refine ⟨(bruteforceBits H CHUNK BATCH status kernel []
      ((hexStringToBytes hash 0).1.getD []) 0 sentinel).events, ?_⟩
    cases resetOk <;> simp [main, hlen, hfs]

/-- Witness of `empty_piece_is_searched`: the empty piece with chunks of 16
and batches of 8. -/
theorem empty_piece_is_searched_witness :
    0 < 16 ∧ 0 < 8
    ∧ ∃ rest,
        (bruteforceBits toyHasher 16 8 allOk (bitFlipKernel toyHasher 16 8) []
            (toyHasher.hash []) 0 sentinel).events
          = Event.hostMidstates 1 :: Event.call DevCall.setDevice (allOk DevCall.setDevice)
              :: rest :=
  ⟨by decide, by decide,
    (empty_piece_is_searched toyHasher 16 8 allOk (bitFlipKernel toyHasher 16 8) []
      (toyHasher.hash []) sentinel (by decide) (by decide)).2.1⟩

/-- C7 as stated fails: called with `pieceSize = 0`, `bruteforceBits` builds
a midstate table and calls `hipSetDevice` and the device functions after it
up to the kernel launch, whether or not the launch of the empty grid then
reports an error; and `main`, given an empty file, calls `bruteforceBits`
with piece size 0 and exits with code 0. -/
theorem empty_piece_is_not_rejected :
    (bruteforceBits toyHasher 16 8 allOk (bitFlipKernel toyHasher 16 8) []
        (toyHasher.hash []) 0 sentinel).events.take 11
      = Event.hostMidstates 1 :: ((callOrder.take 10).map fun d => Event.call d true)
    ∧ (bruteforceBits toyHasher 16 8 (failAt DevCall.launch) (bitFlipKernel toyHasher 16 8) []
        (toyHasher.hash []) 0 sentinel).events.take 11
      = Event.hostMidstates 1 :: ((callOrder.take 9).map fun d => Event.call d true)
          ++ [Event.call DevCall.launch false]
    ∧ (main toyHasher 16 8 (fun _ => some ⟨[], true⟩) allOk true (bitFlipKernel toyHasher 16 8)
        [['f'], ['p'], List.replicate 40 '0']).1 = 0
    ∧ MainEvent.search 0
        (bruteforceBits toyHasher 16 8 allOk (bitFlipKernel toyHasher 16 8) []
          (List.replicate 20 0) 0 sentinel).events
      ∈ (main toyHasher 16 8 (fun _ => some ⟨[], true⟩) allOk true (bitFlipKernel toyHasher 16 8)
        [['f'], ['p'], List.replicate 40 '0']).2 := by
  refine ⟨by decide, by decide, by decide, by decide⟩

/-! ### `main` and the expected-hash argument -/

/-- C6, as amended: with exactly two arguments, when the expected-hash
argument has odd length or decodes to a number of bytes other than 20,
`main` returns 1 having written only the error message: the piece file is
not opened and `bruteforceBits` is not called.  An argument of 40 characters
passes this check whatever its characters are, and `main` goes on to open the
piece file. -/
theorem main_checks_hash_length_only {σ : Type} (H : Hasher σ) (CHUNK BATCH : Nat)
    (fs : List Char → Option PieceFile) (status : DevCall → Bool) (resetOk : Bool)
    (kernel : Kernel σ) (prog path hash : List Char) :
    ((hash.length % 2 = 1 ∨ hash.length / 2 ≠ 20) →
      main H CHUNK BATCH fs status resetOk kernel [prog, path, hash]
        = (1, [MainEvent.stderr "Error: Incorrect expected hash length"]))
    ∧ (hash.length = 40 →
      (main H CHUNK BATCH fs status resetOk kernel [prog, path, hash]).2.head?
        = some (MainEvent.openFile path)) := by
  constructor
  · intro h
    have hlen : (hexStringToBytes hash 0).2 ≠ 20 := by
      rw [hexStringToBytes_length]
      split <;> omega
    simp [main, hlen]
  · intro h
    have hlen : (hexStringToBytes hash 0).2 = 20 := by
      rw [hexStringToBytes_length]
      split <;> omega
    simp only [main, List.length_cons, List.length_nil, hlen]
    simp only [List.getD_cons_succ, List.getD_cons_zero]
    cases hfs : fs path with
    | none => simp [hlen]
    | some file =>
      cases hr : file.readOk <;> cases resetOk <;> simp [hlen, hr]

/-- Witness of `main_checks_hash_length_only`: a hash argument of 39
characters and one of 38. -/
theorem main_checks_hash_length_only_witness :
    main toyHasher 16 8 (fun _ => some ⟨zeros64, true⟩) allOk true (bitFlipKernel toyHasher 16 8)
        [['f'], ['p'], List.replicate 39 '0']
      = (1, [MainEvent.stderr "Error: Incorrect expected hash length"])
    ∧ main toyHasher 16 8 (fun _ => some ⟨zeros64, true⟩) allOk true (bitFlipKernel toyHasher 16 8)
        [['f'], ['p'], List.replicate 38 '0']
      = (1, [MainEvent.stderr "Error: Incorrect expected hash length"]) :=
  ⟨(main_checks_hash_length_only toyHasher 16 8 (fun _ => some ⟨zeros64, true⟩) allOk true
      (bitFlipKernel toyHasher 16 8) ['f'] ['p'] (List.replicate 39 '0')).1
      (Or.inl (by decide)),
    (main_checks_hash_length_only toyHasher 16 8 (fun _ => some ⟨zeros64, true⟩) allOk true
      (bitFlipKernel toyHasher 16 8) ['f'] ['p'] (List.replicate 38 '0')).1
      (Or.inr (by decide))⟩

/-- C6 as stated fails: given 40 characters `z`, none a hexadecimal digit,
as expected hash, `main` decodes them to 20 zero bytes, opens the piece
file, calls `bruteforceBits` and exits with code 0. -/
theorem main_accepts_non_hex_hash :
    (∀ c ∈ List.replicate 40 'z', hexDigitValue c = none)
    ∧ hexStringToBytes (List.replicate 40 'z') 0 = (some (List.replicate 20 0), 20)
    ∧ (main toyHasher 16 8 (fun _ => some ⟨zeros64, true⟩) allOk true
        (bitFlipKernel toyHasher 16 8) [['f'], ['p'], List.replicate 40 'z']).1 = 0
    ∧ MainEvent.openFile ['p'] ∈
        (main toyHasher 16 8 (fun _ => some ⟨zeros64, true⟩) allOk true
          (bitFlipKernel toyHasher 16 8) [['f'], ['p'], List.replicate 40 'z']).2
    ∧ MainEvent.search 64
        (bruteforceBits toyHasher 16 8 allOk (bitFlipKernel toyHasher 16 8) zeros64
          (List.replicate 20 0) 64 sentinel).events
      ∈ (main toyHasher 16 8 (fun _ => some ⟨zeros64, true⟩) allOk true
          (bitFlipKernel toyHasher 16 8) [['f'], ['p'], List.replicate 40 'z']).2 := by
  refine ⟨by decide, by decide, by decide, by decide, by decide⟩

/-! ### The verifier computes the digest of the flipped piece -/

theorem flipAt_take_append_drop (P : List Nat) (off0 off mask : Nat) (h0 : off0 ≤ off)
    (h : off < P.length) :
    P.take off0 ++ flipAt (P.drop off0) (off - off0) mask = flipAt P off mask := by
  unfold flipAt
  have hlen : (P.take off0).length = off0 := by simp; omega
  have hget : (P.drop off0).getD (off - off0) 0 = P.getD off 0 := by
    simp only [List.getD_eq_getElem?_getD, List.getElem?_drop]
    congr 2
    omega
  rw [hget]
  conv_rhs => rw [← List.take_append_drop off0 P]
  rw [List.set_append]
  simp only [hlen]
  rw [if_neg (by omega)]
  simp

theorem candidateDigest_eq_hash_flipBit {σ : Type} (H : Hasher σ) (hH : H.ContractAtEveryState)
    (CHUNK : Nat) (P : List Nat) (idx : Nat) (hidx : idx < P.length * 8)
    (hsmall : P.length < 2 ^ 31) :
    candidateDigest H CHUNK P (buildMidstates H P P.length CHUNK) P.length idx
      = some (H.hash (flipBit P idx)) := by
  have hbo : byteOffset idx < P.length := by unfold byteOffset; omega
  have hci : chunkIndex CHUNK idx ≤ P.length / CHUNK := Nat.div_le_div_right (Nat.le_of_lt hbo)
  have hle : chunkIndex CHUNK idx * CHUNK ≤ byteOffset idx := Nat.div_mul_le_self _ _
  unfold candidateDigest
  simp only [buildMidstates_entry H P P.length CHUNK hsmall _ hci]
  rw [resume_from_reference H hH P CHUNK _ (by omega)]
  have hsuffix : bytesAt P (chunkIndex CHUNK idx * CHUNK) (P.length - chunkIndex CHUNK idx * CHUNK)
      = P.drop (chunkIndex CHUNK idx * CHUNK) := by
    unfold bytesAt
    apply List.take_of_length_le
    simp
  rw [hsuffix, flipAt_take_append_drop P _ _ _ hle hbo]
  rfl

/-! ### The result cell after the search -/

theorem foldl_verify_of_no_match {σ : Type} (H : Hasher σ) (CHUNK : Nat)
    (pieceData pieceHash : List Nat) (midstates : List (Option σ)) (pieceSize : Nat)
    (s : Cell) (cs : List Nat) (cell : Cell)
    (hno : ∀ c ∈ cs, candidateDigest H CHUNK pieceData midstates pieceSize c ≠ some pieceHash) :
    cs.foldl (verifyCandidate H CHUNK pieceData pieceHash midstates pieceSize s) cell = cell := by
  induction cs generalizing cell with
  | nil => rfl
  | cons c cs ih =>
    rw [List.foldl_cons]
    have h1 : verifyCandidate H CHUNK pieceData pieceHash midstates pieceSize s cell c = cell := by
      unfold verifyCandidate
      rw [if_neg (hno c (List.mem_cons_self _ _))]
    rw [h1]
    exact ih cell fun d hd => hno d (List.mem_cons_of_mem _ hd)

/-- After the candidates `cs` the cell is as it was or holds the index of a
matching candidate of `cs`, cut to 32 bits. -/
theorem foldl_verify_mem {σ : Type} (H : Hasher σ) (CHUNK : Nat)
    (pieceData pieceHash : List Nat) (midstates : List (Option σ)) (pieceSize : Nat)
    (s : Cell) (cs : List Nat) (cell : Cell) :
    cs.foldl (verifyCandidate H CHUNK pieceData pieceHash midstates pieceSize s) cell = cell
    ∨ ∃ c, c ∈ cs
      ∧ cs.foldl (verifyCandidate H CHUNK pieceData pieceHash midstates pieceSize s) cell
          = toCell c
      ∧ candidateDigest H CHUNK pieceData midstates pieceSize c = some pieceHash := by
  induction cs generalizing cell with
  | nil => exact Or.inl rfl
  | cons c cs ih =>
    rw [List.foldl_cons]
    have h1 : verifyCandidate H CHUNK pieceData pieceHash midstates pieceSize s cell c = cell
        ∨ (verifyCandidate H CHUNK pieceData pieceHash midstates pieceSize s cell c = toCell c
          ∧ candidateDigest H CHUNK pieceData midstates pieceSize c = some pieceHash) := by
      unfold verifyCandidate
      split_ifs with g1 g2
      · exact Or.inr ⟨rfl, g1⟩
      · exact Or.inl rfl
      · exact Or.inl rfl
    rcases ih (verifyCandidate H CHUNK pieceData pieceHash midstates pieceSize s cell c)
      with h | ⟨d, hd, h, hm⟩
    · rcases h1 with h1 | ⟨h1, hm1⟩
      · exact Or.inl (h.trans h1)
      · exact Or.inr ⟨c, List.mem_cons_self _ _, h.trans h1, hm1⟩
    · exact Or.inr ⟨d, List.mem_cons_of_mem _ hd, h, hm⟩

theorem foldl_verify_of_unique_match {σ : Type} (H : Hasher σ) (CHUNK : Nat)
    (pieceData pieceHash : List Nat) (midstates : List (Option σ)) (pieceSize : Nat)
    (s : Cell) (i : Nat) (cs : List Nat)
    (hmatch : candidateDigest H CHUNK pieceData midstates pieceSize i = some pieceHash)
    (huniq : ∀ c ∈ cs,
      candidateDigest H CHUNK pieceData midstates pieceSize c = some pieceHash → c = i) :
    (i ∈ cs →
      cs.foldl (verifyCandidate H CHUNK pieceData pieceHash midstates pieceSize s) s = toCell i)
    ∧ cs.foldl (verifyCandidate H CHUNK pieceData pieceHash midstates pieceSize s) (toCell i)
        = toCell i := by
  induction cs with
  | nil => exact ⟨fun h => absurd h (List.not_mem_nil _), rfl⟩
  | cons c cs ih =>
    have ih' := ih fun d hd => huniq d (List.mem_cons_of_mem _ hd)
    have hstep_i : verifyCandidate H CHUNK pieceData pieceHash midstates pieceSize s
        (toCell i) c = toCell i := by
      unfold verifyCandidate
      split_ifs with h1 h2
      · rw [huniq c (List.mem_cons_self _ _) h1]
      · rfl
      · rfl
    constructor
    · intro hmem
      rw [List.foldl_cons]
      by_cases hc : candidateDigest H CHUNK pieceData midstates pieceSize c = some pieceHash
      · have hci : c = i := huniq c (List.mem_cons_self _ _) hc
        have : verifyCandidate H CHUNK pieceData pieceHash midstates pieceSize s s c
            = toCell i := by
          unfold verifyCandidate
          rw [if_pos hc, if_pos rfl, hci]
        rw [this]
        exact ih'.2
      · have : verifyCandidate H CHUNK pieceData pieceHash midstates pieceSize s s c = s := by
          unfold verifyCandidate
          rw [if_neg hc]
        rw [this]
        apply ih'.1
        rcases List.mem_cons.1 hmem with h | h
        · exact absurd (h ▸ hmatch) hc
        · exact h
    · rw [List.foldl_cons, hstep_i]
      exact ih'.2

theorem toCell_val_le (n : Nat) : (toCell n).val ≤ n :=
  Nat.mod_le _ _

theorem toCell_val_of_lt (n : Nat) (h : n < 2 ^ 32) : (toCell n).val = n :=
  Nat.mod_eq_of_lt h

/-! ### Which candidates the launched workers verify -/

theorem mem_workerBatch (BATCH pieceSize w idx : Nat) :
    idx ∈ workerBatch BATCH pieceSize w ↔ InBatch BATCH w idx ∧ idx < pieceSize * 8 := by
  unfold workerBatch InBatch
  simp only [List.mem_filter, List.mem_map, List.mem_range, decide_eq_true_eq]
  constructor
  · rintro ⟨⟨j, hj, rfl⟩, h⟩
    refine ⟨⟨by omega, ?_⟩, h⟩
    rw [Nat.add_mul]
    omega
  · rintro ⟨⟨h1, h2⟩, h⟩
    rw [Nat.add_mul] at h2
    exact ⟨⟨idx - w * BATCH, by omega, by omega⟩, h⟩

theorem mem_allCandidates (BATCH pieceSize workers idx : Nat) :
    idx ∈ allCandidates BATCH pieceSize workers
      ↔ (∃ w, w < workers ∧ InBatch BATCH w idx) ∧ idx < pieceSize * 8 := by
  unfold allCandidates
  simp only [List.mem_flatMap, List.mem_range, mem_workerBatch]
  constructor
  · rintro ⟨w, hw, hin, h⟩
    exact ⟨⟨w, hw, hin⟩, h⟩
  · rintro ⟨⟨w, hw, hin⟩, h⟩
    exact ⟨w, hw, hin, h⟩

theorem inBatch_lt (BATCH workers w idx : Nat) (hw : w < workers) (h : InBatch BATCH w idx) :
    idx < workers * BATCH := by
  have : (w + 1) * BATCH ≤ workers * BATCH := Nat.mul_le_mul_right _ hw
  unfold InBatch at h
  omega

theorem mem_workerByteBatch (BATCH pieceSize w idx : Nat) :
    idx ∈ workerByteBatch BATCH pieceSize w
      ↔ (w * BATCH ≤ idx / 8 ∧ idx / 8 < (w + 1) * BATCH) ∧ idx < pieceSize * 8 := by
  unfold workerByteBatch
  simp only [List.mem_filter, List.mem_map, List.mem_range, decide_eq_true_eq]
  constructor
  · rintro ⟨⟨j, hj, rfl⟩, h⟩
    refine ⟨⟨by omega, ?_⟩, h⟩
    rw [Nat.add_mul]
    omega
  · rintro ⟨⟨h1, h2⟩, h⟩
    rw [Nat.add_mul] at h2
    exact ⟨⟨idx - w * BATCH * 8, by omega, by omega⟩, h⟩

/-! ### The toy hasher on pieces of zero bytes -/

theorem toyHasher_contract : toyHasher.ContractAtEveryState := by
  intro s A B
  simp [toyHasher]

theorem toyHasher_digest_length (bytes : List Nat) : (toyHasher.hash bytes).length = 20 := by
  simp [Hasher.hash, toyHasher]

theorem weightedSum_zeros (pos n : Nat) : weightedSum pos (List.replicate n 0) = 0 := by
  induction n generalizing pos with
  | zero => rfl
  | succ n ih => simp [List.replicate_succ, weightedSum, ih]

theorem sum_set_zeros (n k v : Nat) (hk : k < n) :
    ((List.replicate n 0).set k v).sum = v := by
  induction n generalizing k with
  | zero => omega
  | succ n ih =>
    cases k with
    | zero => simp [List.replicate_succ]
    | succ k => simp [List.replicate_succ, ih k (by omega)]

theorem weightedSum_set_zeros (pos n k v : Nat) (hk : k < n) :
    weightedSum pos ((List.replicate n 0).set k v) = (pos + k + 1) * v := by
  induction n generalizing pos k with
  | zero => omega
  | succ n ih =>
    cases k with
    | zero => simp [List.replicate_succ, weightedSum, weightedSum_zeros]
    | succ k =>
      simp only [List.replicate_succ, List.set_cons_succ, weightedSum, ih (pos + 1) k (by omega)]
      ring

theorem last_set_zeros (n k v : Nat) (hk : k < n) :
    ((List.replicate n 0).set k v).getD (((List.replicate n 0).set k v).length - 1) 0
      = if k = n - 1 then v else 0 := by
  simp only [List.length_set, List.length_replicate, List.getD_eq_getElem?_getD,
    List.getElem?_set, List.getElem?_replicate]
  have hn : n - 1 < n := by omega
  split_ifs <;> simp_all

theorem flipBit_zeros (n i : Nat) :
    flipBit (List.replicate n 0) i = (List.replicate n 0).set (i / 8) (2 ^ (i % 8)) := by
  unfold flipBit flipAt byteOffset bitMask
  have : (List.replicate n 0).getD (i / 8) 0 = 0 := by
    simp only [List.getD_eq_getElem?_getD, List.getElem?_replicate]
    split <;> rfl
  rw [this, Nat.zero_xor, Nat.one_shiftLeft]

theorem toyHasher_hash_flip_zeros (n i : Nat) (hi : i < n * 8) :
    toyHasher.hash (flipBit (List.replicate n 0) i)
      = [2 ^ (i % 8) % 256, (i / 8 + 1) * 2 ^ (i % 8) % 256,
          (i / 8 + 1) * 2 ^ (i % 8) / 256 % 256,
          (if i / 8 = n - 1 then 2 ^ (i % 8) else 0) % 256] ++ List.replicate 16 0 := by
  have hk : i / 8 < n := by omega
  rw [flipBit_zeros]
  simp only [Hasher.hash, toyHasher, List.nil_append, sum_set_zeros n _ _ hk,
    weightedSum_set_zeros 0 n _ _ hk, last_set_zeros n _ _ hk, Nat.zero_add]

theorem toyHasher_hash_zeros (n : Nat) :
    toyHasher.hash (List.replicate n 0) = List.replicate 20 0 := by
  have h1 : (List.replicate n 0).getD ((List.replicate n 0).length - 1) 0 = 0 := by
    simp only [List.getD_eq_getElem?_getD, List.getElem?_replicate]
    split <;> rfl
  simp only [Hasher.hash, toyHasher, List.nil_append, weightedSum_zeros, h1]
  simp [List.replicate]

theorem two_pow_mod_ne_zero (a : Nat) (ha : a < 8) : 2 ^ a % 256 ≠ 0 := by
  interval_cases a <;> decide

/-- No single-bit flip of a piece of zeros has the toy digest of the piece. -/
theorem toyHasher_flip_zeros_ne (n j : Nat) (hj : j < n * 8) :
    toyHasher.hash (flipBit (List.replicate n 0) j) ≠ toyHasher.hash (List.replicate n 0) := by
  rw [toyHasher_hash_flip_zeros n j hj, toyHasher_hash_zeros]
  intro h
  have h1 : 2 ^ (j % 8) % 256 = 0 := by
    have := congrArg (fun l => l.getD 0 0) h
    simpa using this
  exact two_pow_mod_ne_zero (j % 8) (Nat.mod_lt _ (by decide)) h1

theorem two_pow_mod_injective (a b : Nat) (ha : a < 8) (hb : b < 8)
    (h : 2 ^ a % 256 = 2 ^ b % 256) : a = b := by
  interval_cases a <;> interval_cases b <;> simp_all

/-- On a piece of at most 256 zero bytes, different single-bit flips have
different toy digests. -/
theorem toyHasher_flip_zeros_injective (n i j : Nat) (hn : n ≤ 256) (hi : i < n * 8)
    (hj : j < n * 8)
    (h : toyHasher.hash (flipBit (List.replicate n 0) i)
      = toyHasher.hash (flipBit (List.replicate n 0) j)) : i = j := by
  rw [toyHasher_hash_flip_zeros n i hi, toyHasher_hash_flip_zeros n j hj] at h
  simp only [List.cons_append, List.nil_append, List.cons.injEq, and_true] at h
  obtain ⟨h1, h2, h3, -⟩ := h
  have hi8 : i % 8 < 8 := Nat.mod_lt _ (by decide)
  have hj8 : j % 8 < 8 := Nat.mod_lt _ (by decide)
  have hmod : i % 8 = j % 8 := two_pow_mod_injective _ _ hi8 hj8 h1
  rw [← hmod] at h2 h3
  have hdiv : i / 8 = j / 8 := by
    have hi256 : i / 8 < 256 := by omega
    have hj256 : j / 8 < 256 := by omega
    generalize i / 8 = p at h2 h3 hi256
    generalize j / 8 = q at h2 h3 hj256
    generalize i % 8 = a at h2 h3 hi8
    interval_cases a <;> simp only [Nat.reducePow] at h2 h3 <;> omega
  omega

/-- On a piece of zero bytes of any length, no other single-bit flip has
the toy digest of the flip of the last bit. -/
theorem toyHasher_last_bit_unique (n j : Nat) (hj : j < n * 8)
    (h : toyHasher.hash (flipBit (List.replicate n 0) j)
      = toyHasher.hash (flipBit (List.replicate n 0) (n * 8 - 1))) : j = n * 8 - 1 := by
  have hn : 0 < n := by omega
  have hi : n * 8 - 1 < n * 8 := by omega
  rw [toyHasher_hash_flip_zeros n j hj, toyHasher_hash_flip_zeros n _ hi] at h
  simp only [List.cons_append, List.nil_append, List.cons.injEq, and_true] at h
  obtain ⟨h1, -, -, h4⟩ := h
  have hj8 : j % 8 < 8 := Nat.mod_lt _ (by decide)
  have hi7 : (n * 8 - 1) % 8 = 7 := by omega
  have hid : (n * 8 - 1) / 8 = n - 1 := by omega
  rw [hi7] at h1
  have hmod : j % 8 = 7 := two_pow_mod_injective _ _ hj8 (by decide) h1
  rw [hi7, hid, if_pos rfl, hmod] at h4
  have hdiv : j / 8 = n - 1 := by
    by_contra hne
    rw [if_neg hne] at h4
    revert h4
    decide
  omega

/-! ### The search as `bruteforceBits` runs it -/

/-- The value left in `*result` when every device call succeeds: what the
kernel leaves in the result cell. -/
theorem bruteforceBits_result_of_all_ok {σ : Type} (H : Hasher σ) (CHUNK BATCH : Nat)
    (status : DevCall → Bool) (kernel : Kernel σ) (pieceData pieceHash : List Nat)
    (pieceSize : Nat) (result : Cell) (hok : ∀ d, status d = true) :
    (bruteforceBits H CHUNK BATCH status kernel pieceData pieceHash pieceSize result).result
      = kernel (gridDimX (blocksPerGrid pieceSize BATCH)) threadsPerBlock
          (pieceData.take pieceSize) (pieceHash.take 20)
          ((buildMidstates H pieceData pieceSize CHUNK).take (pieceSize / CHUNK + 1))
          pieceSize result := by
  rcases bruteforceBits_outcome H CHUNK BATCH status kernel pieceData pieceHash pieceSize result
    with ⟨pre, c, msg, hc, hfail, hrun, hpre⟩ | ⟨hrest, hrb, hrun⟩ | ⟨_, hrun⟩
  · rw [hok c] at hfail
    cases hfail
  · rw [hok DevCall.readBack] at hrb
    cases hrb
  · rw [hrun, errorExit_result]

/-- The same when the piece buffer holds exactly `pieceSize` bytes and the
hash 20 bytes. -/
theorem bruteforceBits_result_of_success {σ : Type} (H : Hasher σ) (CHUNK BATCH : Nat)
    (status : DevCall → Bool) (kernel : Kernel σ) (P D : List Nat) (s : Cell)
    (hok : ∀ d, status d = true) (hlen : D.length = 20) :
    (bruteforceBits H CHUNK BATCH status kernel P D P.length s).result
      = kernel (gridDimX (blocksPerGrid P.length BATCH)) threadsPerBlock P D
          (buildMidstates H P P.length CHUNK) P.length s := by
  rw [bruteforceBits_result_of_all_ok H CHUNK BATCH status kernel P D P.length s hok,
    List.take_length]
  have h1 : D.take 20 = D := List.take_of_length_le (by omega)
  have h2 : (buildMidstates H P P.length CHUNK).take (P.length / CHUNK + 1)
      = buildMidstates H P P.length CHUNK :=
    List.take_of_length_le (by rw [buildMidstates_length])
  rw [h1, h2]

/-- Where the launch reaches: for a piece `P` below `2^31` bytes, a bit
index `i` in the batch of a launched worker, and `D` the 20-byte digest of
`P` with bit `i` flipped, no other single-bit flip of `P` having digest `D`,
the search leaves the index (cut to 32 bits) in `*result`, whatever the order
in which the candidates are verified. -/
theorem round_trip_in_launched_batch {σ : Type} (H : Hasher σ) (CHUNK BATCH : Nat)
    (interleaving : List Nat → List Nat) (status : DevCall → Bool) (P D : List Nat) (i : Nat)
    (s : Cell) (hH : H.ContractAtEveryState) (hsmall : P.length < 2 ^ 31)
    (hperm : ∀ cs, (interleaving cs).Perm cs) (hok : ∀ d, status d = true)
    (hi : i < P.length * 8) (hD : D = H.hash (flipBit P i)) (hlen : D.length = 20)
    (huniq : ∀ j, j < P.length * 8 → j ≠ i → H.hash (flipBit P j) ≠ D)
    (hcover : ∃ w, w < launchedWorkers P.length BATCH ∧ InBatch BATCH w i) :
    (bruteforceBits H CHUNK BATCH status (bitFlipKernelScheduled H CHUNK BATCH interleaving)
      P D P.length s).result = toCell i := by
  rw [bruteforceBits_result_of_success H CHUNK BATCH status _ P D s hok hlen]
  unfold bitFlipKernelScheduled
  have hmatch : candidateDigest H CHUNK P (buildMidstates H P P.length CHUNK) P.length i
      = some D := by
    rw [candidateDigest_eq_hash_flipBit H hH CHUNK P i hi hsmall, hD]
  refine (foldl_verify_of_unique_match H CHUNK P D _ P.length s i _ hmatch ?_).1 ?_
  · intro c hc hcd
    have hc' := (mem_allCandidates _ _ _ _).1 ((hperm _).mem_iff.1 hc)
    rw [candidateDigest_eq_hash_flipBit H hH CHUNK P c hc'.2 hsmall] at hcd
    by_contra hne
    exact huniq c hc'.2 hne (Option.some.inj hcd)
  · exact (hperm _).mem_iff.2 ((mem_allCandidates _ _ _ _).2 ⟨hcover, hi⟩)

/-- Scenario A of the specification with chunks of 16 bytes and batches of
8: 64 zero bytes, bit 5 flipped, the candidates verified in reverse order;
the search leaves 5 in `*result`. -/
theorem scenario_A_finds_bit_5 :
    (bruteforceBits toyHasher 16 8 allOk (bitFlipKernelScheduled toyHasher 16 8 List.reverse)
      zeros64 (toyHasher.hash (flipBit zeros64 5)) zeros64.length sentinel).result.val = 5 := by
  rw [round_trip_in_launched_batch toyHasher 16 8 List.reverse allOk zeros64
    (toyHasher.hash (flipBit zeros64 5)) 5 sentinel toyHasher_contract (by decide)
    (fun cs => List.reverse_perm cs) (fun _ => rfl) (by decide) rfl
    (toyHasher_digest_length _)
    (fun j hj hne heq =>
      hne (toyHasher_flip_zeros_injective 64 j 5 (by decide) hj (by decide) heq))
    ⟨0, by decide, by decide⟩]
  exact toCell_val_of_lt 5 (by decide)

/-- When every device call succeeds and no single-bit flip of the piece has
the target digest, `*result` keeps the value it had (spec section 8, "no
false positive"). -/
theorem bruteforceBits_not_found {σ : Type} (H : Hasher σ) (CHUNK BATCH : Nat)
    (status : DevCall → Bool) (P D : List Nat) (s : Cell)
    (hH : H.ContractAtEveryState) (hsmall : P.length < 2 ^ 31)
    (hok : ∀ d, status d = true) (hlen : D.length = 20)
    (hno : ∀ j, j < P.length * 8 → H.hash (flipBit P j) ≠ D) :
    (bruteforceBits H CHUNK BATCH status (bitFlipKernel H CHUNK BATCH) P D P.length s).result
      = s := by
  rw [bruteforceBits_result_of_success H CHUNK BATCH status _ P D s hok hlen]
  unfold bitFlipKernel bitFlipKernelScheduled
  apply foldl_verify_of_no_match
  intro c hc hcd
  have hc' := (mem_allCandidates _ _ _ _).1 hc
  rw [candidateDigest_eq_hash_flipBit H hH CHUNK P c hc'.2 hsmall] at hcd
  exact hno c hc'.2 (Option.some.inj hcd)

/-- C5 as stated fails: a run in which the allocation of the result cell
fails and a completed search of 64 zero bytes against their own digest
(scenario B: every call succeeds, no candidate matches) both return with the
sentinel in `*result`. -/
theorem resource_failure_leaves_the_sentinel :
    failAt DevCall.mallocResult DevCall.mallocResult = false
    ∧ (bruteforceBits toyHasher 16 8 (failAt DevCall.mallocResult) (bitFlipKernel toyHasher 16 8)
        zeros64 (toyHasher.hash zeros64) zeros64.length sentinel).result = sentinel
    ∧ (∀ c, allOk c = true)
    ∧ Event.call DevCall.readBack true ∈
        (bruteforceBits toyHasher 16 8 allOk (bitFlipKernel toyHasher 16 8)
          zeros64 (toyHasher.hash zeros64) zeros64.length sentinel).events
    ∧ (bruteforceBits toyHasher 16 8 allOk (bitFlipKernel toyHasher 16 8)
        zeros64 (toyHasher.hash zeros64) zeros64.length sentinel).result = sentinel := by
  refine ⟨by decide, by decide, fun _ => rfl, by decide, ?_⟩
  exact bruteforceBits_not_found toyHasher 16 8 allOk zeros64 _ sentinel toyHasher_contract
    (by decide) (fun _ => rfl) (toyHasher_digest_length _)
    (fun j hj => toyHasher_flip_zeros_ne 64 j hj)

/-! ### The byte past the last full batch -/

/-- The kernel with batches of `BATCH` candidate indices writes only what a
launched worker found. -/
theorem bitFlipKernel_writesOnlyLaunchedBatches {σ : Type} (H : Hasher σ) (CHUNK BATCH : Nat) :
    (bitFlipKernel H CHUNK BATCH).WritesOnlyLaunchedBatches BATCH := by
  intro gridDim blockDim data hash mids size cell
  unfold bitFlipKernel bitFlipKernelScheduled
  rcases foldl_verify_mem H CHUNK data hash mids size cell
    (id (allCandidates BATCH size (gridDim * blockDim))) cell with h | ⟨c, hc, h, -⟩
  · exact Or.inl h
  · right
    rw [h]
    obtain ⟨⟨w, hw, hin⟩, -⟩ := (mem_allCandidates _ _ _ _).1 hc
    have h1 := inBatch_lt _ _ _ _ hw hin
    have h2 := toCell_val_le c
    omega

/-- The kernel with batches of `BATCH` bytes writes only what a launched
worker found. -/
theorem bitFlipKernelBytes_writesOnlyLaunchedBatches {σ : Type} (H : Hasher σ)
    (CHUNK BATCH : Nat) : (bitFlipKernelBytes H CHUNK BATCH).WritesOnlyLaunchedBatches BATCH := by
  intro gridDim blockDim data hash mids size cell
  unfold bitFlipKernelBytes
  rcases foldl_verify_mem H CHUNK data hash mids size cell
    ((List.range (gridDim * blockDim)).flatMap (workerByteBatch BATCH size)) cell
    with h | ⟨c, hc, h, -⟩
  · exact Or.inl h
  · right
    rw [h]
    obtain ⟨w, hw, hcw⟩ := List.mem_flatMap.1 hc
    have hw' : w < gridDim * blockDim := List.mem_range.1 hw
    have hin := ((mem_workerByteBatch _ _ _ _).1 hcw).1
    have h1 : (w + 1) * BATCH ≤ gridDim * blockDim * BATCH := Nat.mul_le_mul_right _ hw'
    have h2 := toCell_val_le c
    have h3 : (toCell c).val / 8 ≤ c / 8 := Nat.div_le_div_right h2
    omega

theorem launchedWorkers_one_past_full_grid (BATCH : Nat) (hB : 2 ≤ BATCH) :
    launchedWorkers (1024 * BATCH + 1) BATCH = 1024 := by
  have hq : (1024 * BATCH + 1) / BATCH = 1024 := by
    rw [Nat.add_div_of_dvd_right (Dvd.intro_left _ rfl), Nat.mul_div_cancel _ (by omega),
      Nat.div_eq_of_lt (by omega)]
  rw [launchedWorkers_of_small _ _ (by rw [hq]; decide), hq]

/-- C1, the code at the failing input: for `BATCH >= 2` and a piece of
`1024 * BATCH + 1` bytes, line 96 launches 1024 workers, whose batches hold
`1024 * BATCH` bytes, one byte short of the piece.  With every device call
succeeding and a kernel that writes only what a launched worker found,
`bruteforceBits` does not leave in `*result` the index `i` of a bit of the
last byte (unless `*result` held `i` at entry), whatever the piece and the
target digest are: the round trip fails for the flips of that byte. -/
theorem round_trip_misses_last_byte {σ : Type} (H : Hasher σ) (CHUNK BATCH : Nat)
    (status : DevCall → Bool) (kernel : Kernel σ) (pieceData pieceHash : List Nat)
    (result : Cell) (i : Nat)
    (hB : 2 ≤ BATCH) (hok : ∀ d, status d = true)
    (hkernel : kernel.WritesOnlyLaunchedBatches BATCH)
    (hi : byteOffset i = 1024 * BATCH) (hres : result.val ≠ i) :
    launchedWorkers (1024 * BATCH + 1) BATCH = 1024
    ∧ launchedWorkers (1024 * BATCH + 1) BATCH * BATCH < 1024 * BATCH + 1
    ∧ (bruteforceBits H CHUNK BATCH status kernel pieceData pieceHash (1024 * BATCH + 1)
        result).result.val ≠ i := by
  have hw := launchedWorkers_one_past_full_grid BATCH hB
  refine ⟨hw, by rw [hw]; omega, ?_⟩
  rw [bruteforceBits_result_of_all_ok H CHUNK BATCH status kernel pieceData pieceHash _ result
    hok]
  rcases hkernel (gridDimX (blocksPerGrid (1024 * BATCH + 1) BATCH)) threadsPerBlock
    (pieceData.take (1024 * BATCH + 1)) (pieceHash.take 20)
    ((buildMidstates H pieceData (1024 * BATCH + 1) CHUNK).take
      ((1024 * BATCH + 1) / CHUNK + 1)) (1024 * BATCH + 1) result with h | h
  · rw [h]
    exact hres
  · have hw' : gridDimX (blocksPerGrid (1024 * BATCH + 1) BATCH) * threadsPerBlock = 1024 := hw
    rw [hw'] at h
    intro heq
    rw [heq] at h
    unfold byteOffset at hi
    omega

/-- Witness of `round_trip_misses_last_byte`, the failing input for
`BATCH = 2`: 2049 zero bytes, target the digest of the piece with its last
bit (index 16391, byte 2048) flipped, no other flip having that digest, every
device call succeeding, the sentinel in `*result`.  Neither with batches of 2
bytes nor with batches of 2 candidate indices does the search return 16391. -/
theorem round_trip_misses_last_byte_witness :
    16391 < (List.replicate (1024 * 2 + 1) 0).length * 8
    ∧ byteOffset 16391 = 1024 * 2
    ∧ (toyHasher.hash (flipBit (List.replicate (1024 * 2 + 1) 0) 16391)).length = 20
    ∧ (∀ j, j < (List.replicate (1024 * 2 + 1) 0).length * 8 → j ≠ 16391 →
        toyHasher.hash (flipBit (List.replicate (1024 * 2 + 1) 0) j)
          ≠ toyHasher.hash (flipBit (List.replicate (1024 * 2 + 1) 0) 16391))
    ∧ launchedWorkers (1024 * 2 + 1) 2 = 1024
    ∧ (bruteforceBits toyHasher 16 2 allOk (bitFlipKernelBytes toyHasher 16 2)
        (List.replicate (1024 * 2 + 1) 0)
        (toyHasher.hash (flipBit (List.replicate (1024 * 2 + 1) 0) 16391))
        (1024 * 2 + 1) sentinel).result.val ≠ 16391
    ∧ (bruteforceBits toyHasher 16 2 allOk (bitFlipKernel toyHasher 16 2)
        (List.replicate (1024 * 2 + 1) 0)
        (toyHasher.hash (flipBit (List.replicate (1024 * 2 + 1) 0) 16391))
        (1024 * 2 + 1) sentinel).result.val ≠ 16391 :=
  ⟨by rw [List.length_replicate]; decide, by decide, toyHasher_digest_length _,
    fun j hj hne heq =>
      hne (toyHasher_last_bit_unique (1024 * 2 + 1) j
        (by rw [List.length_replicate] at hj; exact hj) heq),
    (round_trip_misses_last_byte toyHasher 16 2 allOk (bitFlipKernelBytes toyHasher 16 2)
      (List.replicate (1024 * 2 + 1) 0)
      (toyHasher.hash (flipBit (List.replicate (1024 * 2 + 1) 0) 16391)) sentinel 16391
      (by decide) (fun _ => rfl) (bitFlipKernelBytes_writesOnlyLaunchedBatches _ _ _)
      (by decide) (by decide)).1,
    (round_trip_misses_last_byte toyHasher 16 2 allOk (bitFlipKernelBytes toyHasher 16 2)
      (List.replicate (1024 * 2 + 1) 0)
      (toyHasher.hash (flipBit (List.replicate (1024 * 2 + 1) 0) 16391)) sentinel 16391
      (by decide) (fun _ => rfl) (bitFlipKernelBytes_writesOnlyLaunchedBatches _ _ _)
      (by decide) (by decide)).2.2,
    (round_trip_misses_last_byte toyHasher 16 2 allOk (bitFlipKernel toyHasher 16 2)
      (List.replicate (1024 * 2 + 1) 0)
      (toyHasher.hash (flipBit (List.replicate (1024 * 2 + 1) 0) 16391)) sentinel 16391
      (by decide) (fun _ => rfl) (bitFlipKernel_writesOnlyLaunchedBatches _ _ _)
      (by decide) (by decide)).2.2⟩

end BitrotFinder
